import Mathlib

/-
Verification of the Firedrake TSFC interface layer (firedrake/tsfc_interface.py):
cache-key derivation (TSFCKernel._cache_key), the two-tier kernel cache
(TSFCKernel._cache_lookup, _read_from_disk, _cache_store, clear_cache), the
form-level compilation cache (compile_form) and the Real-space argument
substitution (_real_mangle).

Python values are embedded shallowly: strings as String, dicts as association
lists in insertion order (Python 3.7+ dicts are insertion ordered), booleans as
Bool, ints as Int.  The MD5 digest from hashlib (external library) is modelled
as an injective fingerprint of its input string, the way the specification
treats it (the CacheKey is "uniquely determined by" its inputs).
-/

/-- Characters allowed in the model of parameter keys and string parameter
values: alphanumerics plus underscore, hyphen and dot.  Real form-compiler
parameter keys and values are identifier-like strings.  The separator
characters used by the Python renderings of lists, tuples and dicts (comma,
space, colon, quote, parentheses) are all outside this set. -/
def goodChar (c : Char) : Bool := c.isAlphanum || c == '_' || c == '-' || c == '.'

/-- A string all of whose characters are goodChar. -/
def GoodString (s : String) : Prop := ∀ c ∈ s.data, goodChar c = true

instance (s : String) : Decidable (GoodString s) :=
  inferInstanceAs (Decidable (∀ c ∈ s.data, goodChar c = true))

/-- Strict lexicographic order on character lists by code point (the order
Python uses to sort strings, restricted to the code-point range). -/
def charListLt : List Char → List Char → Bool
  | [], [] => false
  | [], _ :: _ => true
  | _ :: _, [] => false
  | a :: as, b :: bs =>
    if a.toNat < b.toNat then true
    else if b.toNat < a.toNat then false
    else charListLt as bs

/-- Non-strict string order used to model Python sorted() on dict keys. -/
def strLe (s t : String) : Bool := !(charListLt t.data s.data)

/-- Decimal digits of n, most significant first, with an explicit fuel argument
so that the definition reduces inside the kernel. -/
def natReprAux : Nat → Nat → List Char
  | 0, _ => []
  | fuel + 1, n => if n = 0 then [] else natReprAux fuel (n / 10) ++ [Nat.digitChar (n % 10)]

/-- Python str(n) for a natural number: decimal notation, "0" for zero. -/
def natReprL (n : Nat) : List Char :=
  if n = 0 then [Char.ofNat 48] else natReprAux (n + 1) n

def natRepr (n : Nat) : String := String.mk (natReprL n)

/-- Python str of a bool: "True" or "False". -/
def pyBoolStr (b : Bool) : String := if b then "True" else "False"

/-- The universe of form-compiler parameter values in the model: booleans,
integers and (identifier-like) strings. -/
inductive PyVal where
  | pyBool (b : Bool)
  | pyInt (i : Int)
  | pyStr (s : String)
deriving DecidableEq

/-- Python str of an int (possibly negative). -/
def intReprL : Int → List Char
  | Int.ofNat n => natReprL n
  | Int.negSucc n => '-' :: natReprL (n + 1)

/-- Python repr of a parameter value.  repr of a string wraps it in single
quotes; the model omits escape sequences, which the GoodString restriction on
string contents makes unnecessary. -/
def pyValReprL : PyVal → List Char
  | PyVal.pyBool b => (pyBoolStr b).data
  | PyVal.pyInt i => intReprL i
  | PyVal.pyStr s => Char.ofNat 39 :: s.data ++ [Char.ofNat 39]

/-- Comma-space separated join, as Python uses between collection elements. -/
def joinCommaL : List (List Char) → List Char
  | [] => []
  | [t] => t
  | t :: ts => t ++ ',' :: ' ' :: joinCommaL ts

/-- Join of tuple renderings: each element is a tuple body that still needs its
closing parenthesis, elements separated by comma-space. -/
def joinTupleTokens : List (List Char) → List Char
  | [] => []
  | [b] => b ++ [')']
  | b :: bs => b ++ ')' :: ',' :: ' ' :: joinTupleTokens bs

/-- Body (everything up to the closing parenthesis) of the Python rendering of
one (key, value) item tuple of a parameters dict. -/
def paramItemBody (kv : String × PyVal) : List Char :=
  '(' :: Char.ofNat 39 :: kv.1.data ++ Char.ofNat 39 :: ',' :: ' ' :: pyValReprL kv.2

/-- Python str of a list of (key, value) item tuples. -/
def renderItems (items : List (String × PyVal)) : String :=
  String.mk ('[' :: joinTupleTokens (items.map paramItemBody) ++ [']'])

/-- Comparison used to sort dict items: Python sorted() compares the
(key, value) tuples lexicographically; since a dict never holds two items with
equal keys, the comparison never reaches the values, so the model compares keys
only. -/
def keyLe {β : Type} (a b : String × β) : Prop := strLe a.1 b.1 = true

instance {β : Type} : DecidableRel (@keyLe β) :=
  fun a b => inferInstanceAs (Decidable (strLe a.1 b.1 = true))

/-- Strict version of keyLe, used only in proofs. -/
def keyLt {β : Type} (a b : String × β) : Prop := charListLt a.1.data b.1.data = true

def sortItems {β : Type} (l : List (String × β)) : List (String × β) :=
  List.insertionSort keyLe l

/-- Python str(sorted(d.items())) as used in TSFCKernel._cache_key on the
parameters dict and on the global COFFEE defaults dict. -/
def strSortedItems (d : List (String × PyVal)) : String := renderItems (sortItems d)

/-- Rendering of one entry of an int-to-int dict, e.g. the characters of
the text 0 colon space 1. -/
def numItemTok (kv : Nat × Nat) : List Char := natReprL kv.1 ++ ':' :: ' ' :: natReprL kv.2

/-- Python str of an int-keyed dict such as number_map: entries appear in
insertion order between braces, unsorted — this is the raw str(number_map)
of the source, with no canonicalisation. -/
def strNumDict (m : List (Nat × Nat)) : String :=
  String.mk (Char.ofNat 123 :: joinCommaL (m.map numItemTok) ++ [Char.ofNat 125])

/-- The interface argument of TSFCKernel: either None or a KernelBuilder class
(compile_local_form applies it as a factory, so callers pass a class). -/
inductive PyInterface where
  | pyNone
  | cls (name : String)
deriving DecidableEq

/-- Python str(type(interface)).  type(None) is NoneType; the type of a class
is its metaclass, which is the builtin type for ordinary classes, so every
class-valued interface renders identically. -/
def strTypeOf : PyInterface → String
  | PyInterface.pyNone => "<class \x27NoneType\x27>"
  | PyInterface.cls _ => "<class \x27type\x27>"

/-- Rendering of one tuple element of a split index: an int or None. -/
def optNatTok : Option Nat → List Char
  | none => ('N' : Char) :: ['o', 'n', 'e']
  | some n => natReprL n

/-- Python str of the idx argument: None, or a tuple of ints and Nones.  A
one-element Python tuple renders with a trailing comma. -/
def strIdx : Option (List (Option Nat)) → String
  | none => "None"
  | some [] => "()"
  | some [x] => String.mk ('(' :: optNatTok x ++ [',', ')'])
  | some l => String.mk ('(' :: joinCommaL (l.map optNatTok) ++ [')'])

/-- Association-list lookup, first match wins — the model of Python dict
indexing for dicts built without duplicate keys. -/
def alLookup {α β : Type} [DecidableEq α] (k : α) : List (α × β) → Option β
  | [] => none
  | (a, b) :: rest => if k = a then some b else alLookup k rest

/-- A well-formed parameters dict: identifier-like keys and string values, and
no duplicate keys (Python dicts never hold duplicate keys). -/
def WfVal : PyVal → Prop
  | PyVal.pyStr s => GoodString s
  | _ => True

instance (v : PyVal) : Decidable (WfVal v) := by
  cases v <;> simp only [WfVal] <;> infer_instance

def WfParams (p : List (String × PyVal)) : Prop :=
  (∀ kv ∈ p, GoodString kv.1 ∧ WfVal kv.2) ∧ (p.map Prod.fst).Nodup

instance (p : List (String × PyVal)) : Decidable (WfParams p) :=
  inferInstanceAs (Decidable (_ ∧ _))

/-- Modelled from the spec: the global COFFEE optimisation defaults dict
(default_parameters of firedrake.parameters, a module absent from src).  The
spec names it only as "additional backend-specific defaults"; its contents are
unspecified and the claims do not depend on them, so it is modelled empty. -/
def coffeeDefaults : List (String × PyVal) := []

/-- The inputs of TSFCKernel._cache_key (the communicator returned alongside
the digest is the communicator of the first form domain and takes no part in
the digest). -/
structure CacheKeyArgs where
  sig : String
  name : String
  parameters : List (String × PyVal)
  number_map : List (Nat × Nat)
  subspace_number_map : List (Nat × Nat)
  interface : PyInterface
  coffee : Bool
  idx : Option (List (Option Nat))
  diagonal : Bool
deriving DecidableEq

/-- The concatenated string that TSFCKernel._cache_key feeds to md5, field by
field in the order of the source: form signature, name, sorted COFFEE defaults
items, sorted parameters items, str(number_map), str(subspace_number_map),
str(type(interface)), str(coffee), str(idx), str(diagonal). -/
def cacheKeyString (A : CacheKeyArgs) : String :=
  A.sig ++ A.name ++ strSortedItems coffeeDefaults ++ strSortedItems A.parameters
    ++ strNumDict A.number_map ++ strNumDict A.subspace_number_map
    ++ strTypeOf A.interface ++ pyBoolStr A.coffee ++ strIdx A.idx ++ pyBoolStr A.diagonal

/-- Modelled from the spec: the MD5 hex digest of hashlib (external library).
The spec treats the digest as uniquely determined by the hashed inputs, so the
hash is modelled as an injective fingerprint of the input string. -/
def md5_hexdigest (s : String) : String := s

/-- The digest component of TSFCKernel._cache_key. -/
def cache_key_digest (A : CacheKeyArgs) : String := md5_hexdigest (cacheKeyString A)

/-
The two-tier kernel cache (TSFCKernel._cache_lookup, _read_from_disk,
_cache_store, clear_cache).

The in-memory table is the class-level dict TSFCKernel._cache.  Its keys are
heterogeneous Python values: _cache_lookup looks up the pair
(digest, comm.py2f()) while _read_from_disk and _cache_store store under the
bare digest string, so the model keys the table with a sum of the two shapes.

The on-disk store is modelled as a map from the full digest to a file state;
the source stores the entry at shard/rest where shard is the first two digest
characters and rest the remainder, a bijective split of the digest.  A file is
either readable (good, carrying the pickled value — pickle round-trips are the
identity in the model) or fails gzip decompression with zlib.error (corrupt).

MPI collectives are modelled at group level: rank 0 computes the broadcast
value from the disk and every rank observes that same value, so one function
gives the common outcome of _read_from_disk for every process of the group.
-/

/-- A key of the in-memory table TSFCKernel._cache: either a bare digest (the
shape _cache_store and _read_from_disk write) or a (digest, comm.py2f()) pair
(the shape _cache_lookup reads). -/
inductive MemKey where
  | bare (digest : String)
  | withComm (digest : String) (commkey : Int)
deriving DecidableEq

/-- The in-memory table, insertion ordered. -/
abbrev MemTable (V : Type) : Type := List (MemKey × V)

/-- One on-disk cache file: readable, or failing decompression. -/
inductive DiskFile (V : Type) where
  | good (v : V)
  | corrupt
deriving DecidableEq

/-- The on-disk store: digest to file state. -/
abbrev DiskStore (V : Type) : Type := List (String × DiskFile V)

/-- The value rank 0 computes and broadcasts in _read_from_disk: the file
bytes if the sharded path exists and decompresses, None if the file is absent
or gzip raises zlib.error (caught and passed over). -/
def readDiskBytes {V : Type} (disk : DiskStore V) (key : String) : Option V :=
  match alLookup key disk with
  | some (DiskFile.good v) => some v
  | some DiskFile.corrupt => none
  | none => none

/-- Python dict.setdefault: return the existing value if the key is present,
otherwise insert the given value and return it. -/
def pySetdefault {α β : Type} [DecidableEq α] (d : List (α × β)) (k : α) (v : β) :
    β × List (α × β) :=
  match alLookup k d with
  | some w => (w, d)
  | none => (v, d ++ [(k, v)])

/-- Python dict assignment d[k] = v: replace the value in place if the key is
present, otherwise append the new entry. -/
def pySet {α β : Type} [DecidableEq α] (d : List (α × β)) (k : α) (v : β) :
    List (α × β) :=
  match d with
  | [] => [(k, v)]
  | (a, b) :: rest => if a = k then (a, v) :: rest else (a, b) :: pySet rest k v

/-- TSFCKernel._read_from_disk: rank 0 reads the sharded file and broadcasts
the bytes (or None); a None broadcast raises KeyError on every rank (modelled
as the error of the Except), otherwise every rank deserialises and stores the
result in the in-memory table under the BARE digest via setdefault. -/
def read_from_disk {V : Type} (disk : DiskStore V) (key : String) (mem : MemTable V) :
    Except Unit (V × MemTable V) :=
  match readDiskBytes disk key with
  | none => Except.error ()
  | some v =>
    let rm := pySetdefault mem (MemKey.bare key) v
    Except.ok (rm.1, rm.2)

/-- TSFCKernel._cache_lookup: check the in-memory table under the pair
(digest, comm.py2f()); on a miss fall through to _read_from_disk.  The second
component counts the disk reads this lookup performs (0 on an in-memory hit,
1 otherwise). -/
def cache_lookup {V : Type} (mem : MemTable V) (disk : DiskStore V)
    (key : String) (commkey : Int) : Except Unit (V × MemTable V) × Nat :=
  match alLookup (MemKey.withComm key commkey) mem with
  | some v => (Except.ok (v, mem), 0)
  | none => (read_from_disk disk key mem, 1)

/-- TSFCKernel._cache_store: store in the in-memory table under the BARE
digest; rank 0 gzip-pickles the value to a temporary file in the shard
directory and atomically renames it into place (last writer wins), followed by
a group barrier. -/
def cache_store {V : Type} (mem : MemTable V) (disk : DiskStore V)
    (key : String) (v : V) : MemTable V × DiskStore V :=
  (pySet mem (MemKey.bare key) v, pySet disk key (DiskFile.good v))

/-- clear_cache: rank 0 removes the whole cache root with shutil.rmtree and
recreates the empty root directory (_ensure_cachedir); the store shared by the
group is empty afterwards.  The in-memory class-level table is not touched. -/
def clear_cache {V : Type} (_disk : DiskStore V) : DiskStore V := []

/- Concrete instances used to evaluate the cache at a failing input. -/

/-- A one-entry disk store holding a readable entry for digest k0. -/
def diskEx : DiskStore Nat := [("k0", DiskFile.good 42)]

/-- The in-memory table after the first lookup of k0 populated it from disk. -/
def memEx : MemTable Nat := [(MemKey.bare "k0", 42)]

/-
The UFL form fragment the Real-space mangling acts on.  A form is an
expression tree whose leaves include Arguments (test and trial placeholders
carrying a function space) and Coefficients; ufl.replace substitutes exact
subexpression matches, and form.arguments() lists the distinct Argument leaves
sorted by their number (0 for test, 1 for trial).
-/

/-- A function space: its UFL element family name (the source compares
x.ufl_element().family() with the string Real) and an identifier. -/
structure FunctionSpace where
  family : String
  id : Nat
deriving DecidableEq

/-- The expression fragment: argument and coefficient leaves, integer
literals, sums and products. -/
inductive Expr where
  | argument (number : Nat) (space : FunctionSpace)
  | coefficient (id : Nat)
  | const (n : Int)
  | add (a b : Expr)
  | mul (a b : Expr)
deriving DecidableEq

/-- All Argument leaves of an expression, in traversal order, duplicates
included. -/
def argLeaves : Expr → List (Nat × FunctionSpace)
  | Expr.argument n V => [(n, V)]
  | Expr.coefficient _ => []
  | Expr.const _ => []
  | Expr.add a b => argLeaves a ++ argLeaves b
  | Expr.mul a b => argLeaves a ++ argLeaves b

/-- form.arguments(): the distinct Argument leaves sorted by argument
number. -/
def argumentsOf (e : Expr) : List (Nat × FunctionSpace) :=
  List.insertionSort (fun a b => a.1 ≤ b.1) (argLeaves e).dedup

/-- All Coefficient leaves, deduplicated in traversal order
(form.coefficients()). -/
def coeffLeaves : Expr → List Nat
  | Expr.argument _ _ => []
  | Expr.coefficient i => [i]
  | Expr.const _ => []
  | Expr.add a b => coeffLeaves a ++ coeffLeaves b
  | Expr.mul a b => coeffLeaves a ++ coeffLeaves b

def coefficientsOf (e : Expr) : List Nat := (coeffLeaves e).dedup

/-- ufl.replace: substitute each subexpression that matches a key of the
mapping by its image, leaving other nodes untouched and descending into
children of unmatched nodes. -/
def replaceE (σ : List (Expr × Expr)) : Expr → Expr
  | Expr.argument n V =>
    match alLookup (Expr.argument n V) σ with
    | some r => r
    | none => Expr.argument n V
  | Expr.coefficient i =>
    match alLookup (Expr.coefficient i) σ with
    | some r => r
    | none => Expr.coefficient i
  | Expr.const n =>
    match alLookup (Expr.const n) σ with
    | some r => r
    | none => Expr.const n
  | Expr.add a b =>
    match alLookup (Expr.add a b) σ with
    | some r => r
    | none => Expr.add (replaceE σ a) (replaceE σ b)
  | Expr.mul a b =>
    match alLookup (Expr.mul a b) σ with
    | some r => r
    | none => Expr.mul (replaceE σ a) (replaceE σ b)

/-- _real_mangle: if the form has arguments in the Real function space,
replace each of them by the literal 1; if exactly the test argument is Real
and the trial argument is not, additionally turn the trial argument into a
test function (an Argument with number 0) on its own space. -/
def real_mangle (form : Expr) : Expr :=
  let a := argumentsOf form
  let reals := a.map (fun x => x.2.family == "Real")
  if !(reals.any id) then form
  else
    let replacements := (a.zip reals).filterMap
      (fun p => if p.2 then some (Expr.argument p.1.1 p.1.2, Expr.const 1) else none)
    let replacements :=
      if reals == [true, false] then
        match a with
        | _ :: a1 :: _ => replacements ++ [(Expr.argument a1.1 a1.2, Expr.argument 0 a1.2)]
        | _ => replacements
      else replacements
    replaceE replacements form

/-
compile_form and TSFCKernel.__init__.

External collaborators are passed as explicit function parameters: the kernel
generator (the TSFC lowering pipeline behind TSFCKernel, whose outputs the
claims treat as opaque) and the form splitter (split_form of
firedrake.formmanipulation, a module absent from src).
-/

/-- The pyop2 Kernel object wrapped into a KernelInfo (only the fields the
source sets are modelled). -/
structure OpKernel where
  name : String
  requires_zeroed_output_arguments : Bool
deriving DecidableEq

/-- The KernelInfo namedtuple of the source, field for field. -/
structure KernelInfo where
  kernel : OpKernel
  integral_type : String
  oriented : Bool
  subdomain_id : Int
  domain_number : Nat
  coefficient_map : List Nat
  subspace_map : List Nat
  subspace_parts : Option (List Nat)
  needs_cell_facets : Bool
  pass_layer_arg : Bool
  needs_cell_sizes : Bool
deriving DecidableEq

/-- One kernel record returned by the external generator (the tree produced by
compile_local_form), carrying the fields TSFCKernel.__init__ reads. -/
structure GenKernel where
  astName : String
  integral_type : String
  oriented : Bool
  subdomain_id : Int
  domain_number : Nat
  coefficient_numbers : List Nat
  external_data_numbers : List Nat
  external_data_parts : Option (List Nat)
  needs_cell_sizes : Bool
deriving DecidableEq

/-- The loop body of TSFCKernel.__init__: wrap each generated kernel into a
KernelInfo, renumbering local coefficient and subspace numbers through the
given maps (total functions in the model; the Python dicts are total on the
numbers the generator emits) and setting needs_cell_facets and pass_layer_arg
to the literal False of the source. -/
def TSFCKernel_init_kernels (tree : List GenKernel)
    (number_map subspace_number_map : Nat → Nat) : List KernelInfo :=
  tree.map fun k =>
    { kernel := { name := k.astName, requires_zeroed_output_arguments := true }
      integral_type := k.integral_type
      oriented := k.oriented
      subdomain_id := k.subdomain_id
      domain_number := k.domain_number
      coefficient_map := k.coefficient_numbers.map number_map
      subspace_map := k.external_data_numbers.map subspace_number_map
      subspace_parts := k.external_data_parts
      needs_cell_facets := false
      pass_layer_arg := false
      needs_cell_sizes := k.needs_cell_sizes }

/-- Python dict.copy (a shallow copy; the list model shares entries). -/
def pyDictCopy {α β : Type} (d : List (α × β)) : List (α × β) := d

/-- Python dict.update: assign each entry of u into d in order. -/
def pyDictUpdate {α β : Type} [DecidableEq α] (d u : List (α × β)) : List (α × β) :=
  u.foldl (fun acc kv => pySet acc kv.1 kv.2) d

/-- The parameters handling at the top of compile_form: None means a copy of
the form_compiler defaults; otherwise a copy of the defaults updated with the
entries supplied by the caller (caller values win on conflict).  The supplied
dict itself is only read, never written. -/
def effectiveParameters (fc_defaults : List (String × PyVal))
    (parameters : Option (List (String × PyVal))) : List (String × PyVal) :=
  match parameters with
  | none => pyDictCopy fc_defaults
  | some p => pyDictUpdate (pyDictCopy fc_defaults) p

/-- The local helper tuplify of compile_form: the tuple of (key, value) pairs
of a dict in sorted key order. -/
def tuplify (p : List (String × PyVal)) : List (String × PyVal) :=
  (List.insertionSort (fun a b => strLe a b = true) (p.map Prod.fst)).filterMap
    (fun k => (alLookup k p).map (fun v => (k, v)))

/-- A split index tuple: one entry per argument slot, None meaning no
restriction. -/
abbrev IdxT : Type := List (Option Nat)

/-- The SplitKernel namedtuple. -/
structure SplitKernelR where
  indices : IdxT
  kinfo : KernelInfo
deriving DecidableEq

/-- The key of the per-form cache slot firedrake_kernels, as compile_form
builds it: (tuplify of the COFFEE defaults, name, tuplify of the effective
parameters, split flag, diagonal flag). -/
abbrev CFKey : Type :=
  List (String × PyVal) × String × List (String × PyVal) × Bool × Bool

/-- The per-form cache (the dict stashed on form._cache under the
firedrake_kernels slot). -/
abbrev FormCache : Type := List (CFKey × List SplitKernelR)

/-- The generator parameter: everything from TSFCKernel construction through
kernel extraction, as a function of the (already mangled) sub-form, the name
with split suffix, the effective parameters, the local-to-global coefficient
and subspace maps, and the split index. -/
abbrev GenFn : Type :=
  Expr → String → List (String × PyVal) → List (Nat × Nat) → List (Nat × Nat) →
    IdxT → List KernelInfo

/-- The type of the splitter parameter (split_form of
firedrake.formmanipulation, absent from src): form and diagonal flag to the
list of (index tuple, sub-form) pairs. -/
abbrev SplitFn : Type := Expr → Bool → List (IdxT × Expr)

/-- Modelled from the spec: split_form of firedrake.formmanipulation (absent
from src).  The spec describes one SplitForm per nonzero block of the mixed
structure; over non-mixed spaces — the only spaces the expression model
carries — there is a single block covering the whole form, whose index tuple
has one unrestricted (None) entry per argument of the form, as in the
end-to-end scenario of the spec where a two-argument non-mixed form yields the
single index tuple (None, None). -/
def split_form_spec : SplitFn :=
  fun f _ => [(List.replicate (argumentsOf f).length none, f)]

instance : DecidableEq CFKey :=
  inferInstanceAs (DecidableEq (List (String × PyVal) × String × List (String × PyVal) × Bool × Bool))

instance : DecidableEq (CFKey × List SplitKernelR) := inferInstance

instance : DecidableEq FormCache := inferInstanceAs (DecidableEq (List (CFKey × List SplitKernelR)))

/-- The result of a compile_form call: the returned kernels, the updated
per-form cache, the number of generator invocations this call performed, and
the list of forms on which the Real-space substitution was invoked (the last
two are instrumentation recording what the call did, used to state the
caching and ordering claims). -/
structure CompileFormOut where
  kernels : List SplitKernelR
  cache : FormCache
  genCalls : Nat
  mangledForms : List Expr
deriving DecidableEq

/-- The cache key compile_form computes for the per-form slot. -/
def compileFormKey (fc_defaults : List (String × PyVal)) (name : String)
    (parameters : Option (List (String × PyVal))) (split diagonal : Bool) : CFKey :=
  (tuplify coffeeDefaults, name, tuplify (effectiveParameters fc_defaults parameters),
    split, diagonal)

/-- The kernel-name suffix for a split piece: the split indices that are not
None, concatenated in decimal after the name. -/
def splitName (name : String) (idx : IdxT) : String :=
  name ++ String.join ((idx.filterMap id).map natRepr)

/-- compile_form: merge parameters, probe the per-form cache and return the
stashed tuple on a hit; on a miss, split the form (or build the single
unsplit piece whose index tuple is all-None, one slot per argument — one slot
total in diagonal mode), apply _real_mangle to EACH piece, build the
local-to-global coefficient renumbering for each mangled piece, run the
generator, and publish the tuple in the per-form cache via setdefault.
Subspace extraction (firedrake.subspace, absent from src) is modelled empty:
the expression model carries no subspaces and no claim depends on them. -/
def compile_form (gen : GenFn) (splitF : SplitFn)
    (fc_defaults : List (String × PyVal)) (form : Expr) (name : String)
    (parameters : Option (List (String × PyVal))) (split diagonal : Bool)
    (cache : FormCache) : CompileFormOut :=
  let params := effectiveParameters fc_defaults parameters
  let key := compileFormKey fc_defaults name parameters split diagonal
  match alLookup key cache with
  | some r => { kernels := r, cache := cache, genCalls := 0, mangledForms := [] }
  | none =>
    let coefficient_numbers := (coefficientsOf form).enum.map (fun p => (p.2, p.1))
    let iterable :=
      if split then splitF form diagonal
      else [(List.replicate (if diagonal then 1 else (argumentsOf form).length) none, form)]
    let pieces := iterable.map (fun p => (p.1, real_mangle p.2))
    let results := pieces.map (fun p =>
      let number_map := (coefficientsOf p.2).enum.map
        (fun q => (q.1, (alLookup q.2 coefficient_numbers).getD 0))
      (p.1, gen p.2 (splitName name p.1) params number_map [] p.1))
    let kernels := results.flatMap (fun r => r.2.map (fun ki => ⟨r.1, ki⟩))
    let rc := pySetdefault cache key kernels
    { kernels := rc.1, cache := rc.2, genCalls := pieces.length,
      mangledForms := pieces.map Prod.snd }

/-- Modelled from the claim wording, for comparison with the source: a variant
of compile_form that performs the Real-space substitution once per form,
BEFORE splitting, so that the splitter and every later stage already operate
on the substituted form. -/
def compile_form_substFirst (gen : GenFn) (splitF : SplitFn)
    (fc_defaults : List (String × PyVal)) (form : Expr) (name : String)
    (parameters : Option (List (String × PyVal))) (split diagonal : Bool)
    (cache : FormCache) : CompileFormOut :=
  let params := effectiveParameters fc_defaults parameters
  let key := compileFormKey fc_defaults name parameters split diagonal
  match alLookup key cache with
  | some r => { kernels := r, cache := cache, genCalls := 0, mangledForms := [] }
  | none =>
    let form2 := real_mangle form
    let coefficient_numbers := (coefficientsOf form2).enum.map (fun p => (p.2, p.1))
    let pieces :=
      if split then splitF form2 diagonal
      else [(List.replicate (if diagonal then 1 else (argumentsOf form2).length) none, form2)]
    let results := pieces.map (fun p =>
      let number_map := (coefficientsOf p.2).enum.map
        (fun q => (q.1, (alLookup q.2 coefficient_numbers).getD 0))
      (p.1, gen p.2 (splitName name p.1) params number_map [] p.1))
    let kernels := results.flatMap (fun r => r.2.map (fun ki => ⟨r.1, ki⟩))
    let rc := pySetdefault cache key kernels
    { kernels := rc.1, cache := rc.2, genCalls := 1,
      mangledForms := [form2] }

/- Concrete values used to evaluate the definitions at specific inputs. -/

/-- Cache-key inputs whose coefficient number map holds the entries 0 to 1 and
1 to 0, inserted in increasing key order. -/
def exArgsA : CacheKeyArgs :=
  { sig := "sig0", name := "form", parameters := [("degree", PyVal.pyInt 2)],
    number_map := [(0, 1), (1, 0)], subspace_number_map := [],
    interface := PyInterface.pyNone, coffee := false,
    idx := some [none, none], diagonal := false }

/-- The same cache-key inputs with a class-valued interface. -/
def exArgsB : CacheKeyArgs :=
  { exArgsA with interface := PyInterface.cls "KernelBuilderA" }

/-- A Real function space and a non-Real one. -/
def VReal : FunctionSpace := { family := "Real", id := 7 }

def VLag : FunctionSpace := { family := "Lagrange", id := 8 }

/-- A one-argument form with its test function in the Real space: the
integrand of the test function times a coefficient. -/
def formA : Expr := Expr.mul (Expr.argument 0 VReal) (Expr.coefficient 3)

/-- A two-argument form: Real test function, Lagrange trial function. -/
def formB : Expr :=
  Expr.mul (Expr.argument 0 VReal) (Expr.mul (Expr.argument 1 VLag) (Expr.coefficient 3))

/-- A concrete KernelInfo for stub generators. -/
def kinfo0 : KernelInfo :=
  { kernel := { name := "k", requires_zeroed_output_arguments := true }
    integral_type := "cell", oriented := false, subdomain_id := 0,
    domain_number := 0, coefficient_map := [], subspace_map := [],
    subspace_parts := none, needs_cell_facets := false, pass_layer_arg := false,
    needs_cell_sizes := false }

/-- A stub generator producing one fixed kernel for every sub-form. -/
def gen0 : GenFn := fun _ _ _ _ _ _ => [kinfo0]

/-- A concrete generated-kernel record for exercising TSFCKernel.__init__. -/
def genk0 : GenKernel :=
  { astName := "form_cell_integral_otherwise", integral_type := "cell",
    oriented := true, subdomain_id := -1, domain_number := 0,
    coefficient_numbers := [0, 2], external_data_numbers := [1],
    external_data_parts := some [0], needs_cell_sizes := true }

/- Machinery lemmas about the orderings, lookups and renderings. -/

theorem charListLt_irrefl : ∀ l : List Char, charListLt l l = false := by
  intro l
  induction l with
  | nil => rfl
  | cons a as ih => simp [charListLt, ih]

theorem charListLt_asymm : ∀ l1 l2 : List Char,
    charListLt l1 l2 = true → charListLt l2 l1 = false := by
  intro l1
  induction l1 with
  | nil =>
    intro l2 h
    cases l2 with
    | nil => simp [charListLt] at h
    | cons b bs => rfl
  | cons a as ih =>
    intro l2 h
    cases l2 with
    | nil => simp [charListLt] at h
    | cons b bs =>
      by_cases h1 : a.toNat < b.toNat
      · simp [charListLt, h1, show ¬(b.toNat < a.toNat) by omega] at h ⊢
      · by_cases h2 : b.toNat < a.toNat
        · simp [charListLt, h1, h2] at h
        · simp [charListLt, h1, h2] at h ⊢
          exact ih bs h

theorem charListLt_conn : ∀ l1 l2 : List Char,
    charListLt l1 l2 = false → charListLt l2 l1 = false → l1 = l2 := by
  intro l1
  induction l1 with
  | nil =>
    intro l2 h1 _
    cases l2 with
    | nil => rfl
    | cons b bs => simp [charListLt] at h1
  | cons a as ih =>
    intro l2 h1 h2
    cases l2 with
    | nil => simp [charListLt] at h2
    | cons b bs =>
      by_cases hab : a.toNat < b.toNat
      · simp [charListLt, hab] at h1
      · by_cases hba : b.toNat < a.toNat
        · simp [charListLt, hba] at h2
        · have hc : a = b := by
            apply Char.ext
            apply UInt32.ext
            simp only [Char.toNat] at hab hba
            omega
          simp [charListLt, hab, hba] at h1 h2
          rw [hc, ih bs h1 h2]

theorem charListLt_trans : ∀ l1 l2 l3 : List Char,
    charListLt l1 l2 = true → charListLt l2 l3 = true → charListLt l1 l3 = true := by
  intro l1
  induction l1 with
  | nil =>
    intro l2 l3 h1 h2
    cases l3 with
    | nil =>
      cases l2 with
      | nil => simp [charListLt] at h1
      | cons b bs => simp [charListLt] at h2
    | cons c cs => rfl
  | cons a as ih =>
    intro l2 l3 h1 h2
    cases l2 with
    | nil => simp [charListLt] at h1
    | cons b bs =>
      cases l3 with
      | nil => simp [charListLt] at h2
      | cons c cs =>
        by_cases hab : a.toNat < b.toNat
        · by_cases hbc : b.toNat < c.toNat
          · simp [charListLt, show a.toNat < c.toNat by omega]
          · by_cases hcb : c.toNat < b.toNat
            · simp [charListLt, hbc, hcb] at h2
            · simp [charListLt, show a.toNat < c.toNat by omega]
        · by_cases hba : b.toNat < a.toNat
          · simp [charListLt, hab, hba] at h1
          · by_cases hbc : b.toNat < c.toNat
            · simp [charListLt, show a.toNat < c.toNat by omega]
            · by_cases hcb : c.toNat < b.toNat
              · simp [charListLt, hbc, hcb] at h2
              · simp [charListLt, hab, hba] at h1
                simp [charListLt, hbc, hcb] at h2
                simp [charListLt, show ¬(a.toNat < c.toNat) by omega,
                  show ¬(c.toNat < a.toNat) by omega]
                exact ih bs cs h1 h2

instance {β : Type} : IsTotal (String × β) keyLe := by
  constructor
  intro a b
  unfold keyLe strLe
  by_cases h : charListLt b.1.data a.1.data = true
  · right
    simp [charListLt_asymm _ _ h]
  · left
    simp at h
    simp [h]

instance {β : Type} : IsTrans (String × β) keyLe := by
  constructor
  intro a b c hab hbc
  unfold keyLe strLe at hab hbc ⊢
  simp only [Bool.not_eq_true'] at hab hbc ⊢
  by_cases hbc2 : charListLt b.1.data c.1.data = true
  · by_cases hca : charListLt c.1.data a.1.data = true
    · have h5 := charListLt_trans _ _ _ hbc2 hca
      rw [h5] at hab
      cases hab
    · simpa using hca
  · simp only [Bool.not_eq_true] at hbc2
    have heq : b.1.data = c.1.data := charListLt_conn _ _ hbc2 hbc
    rw [← heq]
    exact hab

instance {β : Type} : IsAntisymm (String × β) (@keyLt β) := by
  constructor
  intro a b hab hba
  unfold keyLt at hab hba
  have := charListLt_asymm _ _ hab
  rw [this] at hba
  cases hba

theorem alLookup_eq_some_iff_mem {α β : Type} [DecidableEq α] {l : List (α × β)}
    (h : (l.map Prod.fst).Nodup) {k : α} {v : β} :
    alLookup k l = some v ↔ (k, v) ∈ l := by
  induction l with
  | nil => simp [alLookup]
  | cons ab rest ih =>
    obtain ⟨a, b⟩ := ab
    simp only [List.map_cons, List.nodup_cons] at h
    simp only [alLookup, List.mem_cons, Prod.mk.injEq]
    by_cases hk : k = a
    · subst hk
      rw [if_pos rfl]
      simp only [Option.some.injEq]
      constructor
      · intro hv
        exact Or.inl ⟨by trivial, hv.symm⟩
      · rintro (⟨-, hv⟩ | hm)
        · exact hv.symm
        · exact absurd (List.mem_map_of_mem Prod.fst hm) h.1
    · rw [if_neg hk, ih h.2]
      constructor
      · intro hm
        exact Or.inr hm
      · rintro (⟨hka, -⟩ | hm)
        · exact absurd hka hk
        · exact hm

theorem alLookup_eq_none_iff {α β : Type} [DecidableEq α] {l : List (α × β)} {k : α} :
    alLookup k l = none ↔ k ∉ l.map Prod.fst := by
  induction l with
  | nil => simp [alLookup]
  | cons ab rest ih =>
    obtain ⟨a, b⟩ := ab
    by_cases hk : k = a
    · subst hk
      simp [alLookup]
    · simp [alLookup, hk, ih]

theorem sortItems_perm {β : Type} (l : List (String × β)) : (sortItems l).Perm l :=
  List.perm_insertionSort keyLe l

theorem sorted_keyLt_of_sorted_keyLe {β : Type} {l : List (String × β)}
    (hs : List.Sorted keyLe l) (hn : (l.map Prod.fst).Nodup) :
    List.Sorted (@keyLt β) l := by
  have hne : l.Pairwise (fun a b : String × β => a.1 ≠ b.1) := by
    rw [List.Nodup, List.pairwise_map] at hn
    exact hn
  have := hs.and hne
  apply this.imp
  rintro a b ⟨hle, hne2⟩
  unfold keyLe strLe at hle
  simp only [Bool.not_eq_true'] at hle
  unfold keyLt
  by_cases hc : charListLt a.1.data b.1.data = true
  · exact hc
  · simp only [Bool.not_eq_true] at hc
    have := charListLt_conn _ _ hc hle
    exact absurd (String.ext this) hne2

theorem sortItems_eq_of_map_eq {β : Type} [DecidableEq β] {p1 p2 : List (String × β)}
    (h1 : (p1.map Prod.fst).Nodup) (h2 : (p2.map Prod.fst).Nodup)
    (hm : ∀ k, alLookup k p1 = alLookup k p2) : sortItems p1 = sortItems p2 := by
  have hperm : p1.Perm p2 := by
    rw [List.perm_ext_iff_of_nodup (h1.of_map) (h2.of_map)]
    rintro ⟨k, v⟩
    rw [← alLookup_eq_some_iff_mem h1, ← alLookup_eq_some_iff_mem h2, hm k]
  have hsp : (sortItems p1).Perm (sortItems p2) :=
    (sortItems_perm p1).trans (hperm.trans (sortItems_perm p2).symm)
  have hn1 : ((sortItems p1).map Prod.fst).Nodup :=
    (((sortItems_perm p1).symm).map Prod.fst).nodup h1
  have hn2 : ((sortItems p2).map Prod.fst).Nodup :=
    (((sortItems_perm p2).symm).map Prod.fst).nodup h2
  exact List.eq_of_perm_of_sorted hsp
    (sorted_keyLt_of_sorted_keyLe (List.sorted_insertionSort keyLe p1) hn1)
    (sorted_keyLt_of_sorted_keyLe (List.sorted_insertionSort keyLe p2) hn2)

theorem map_eq_of_sortItems_eq {β : Type} [DecidableEq β] {p1 p2 : List (String × β)}
    (h1 : (p1.map Prod.fst).Nodup) (h2 : (p2.map Prod.fst).Nodup)
    (he : sortItems p1 = sortItems p2) : ∀ k, alLookup k p1 = alLookup k p2 := by
  intro k
  have hmem : ∀ x : String × β, x ∈ p1 ↔ x ∈ p2 := by
    intro x
    rw [← (sortItems_perm p1).mem_iff, he, (sortItems_perm p2).mem_iff]
  cases hc : alLookup k p1 with
  | some v =>
    rw [alLookup_eq_some_iff_mem h1] at hc
    rw [eq_comm, alLookup_eq_some_iff_mem h2]
    exact (hmem _).mp hc
  | none =>
    cases hd : alLookup k p2 with
    | some w =>
      rw [alLookup_eq_some_iff_mem h2] at hd
      have hw : (k, w) ∈ p1 := (hmem _).mpr hd
      rw [← alLookup_eq_some_iff_mem h1] at hw
      rw [hw] at hc
      cases hc
    | none => rfl

theorem natReprAux_eq_digits : ∀ (fuel n : Nat), n ≤ fuel →
    natReprAux fuel n = ((Nat.digits 10 n).map Nat.digitChar).reverse := by
  intro fuel
  induction fuel with
  | zero =>
    intro n hn
    have : n = 0 := by omega
    subst this
    simp [natReprAux]
  | succ fuel ih =>
    intro n hn
    by_cases h0 : n = 0
    · subst h0
      simp [natReprAux]
    · have hlt : n / 10 < n := Nat.div_lt_self (Nat.pos_of_ne_zero h0) (by norm_num)
      have hrec := ih (n / 10) (by omega)
      rw [show natReprAux (fuel + 1) n = natReprAux fuel (n / 10) ++ [Nat.digitChar (n % 10)] by
        simp [natReprAux, h0]]
      rw [hrec, Nat.digits_def' (by norm_num : (1:Nat) < 10) (Nat.pos_of_ne_zero h0)]
      simp

theorem natReprL_eq_digits {n : Nat} (h0 : n ≠ 0) :
    natReprL n = ((Nat.digits 10 n).map Nat.digitChar).reverse := by
  rw [natReprL, if_neg h0]
  exact natReprAux_eq_digits (n + 1) n (by omega)

theorem digitChar_inj_lt {d e : Nat} (hd : d < 10) (he : e < 10)
    (h : Nat.digitChar d = Nat.digitChar e) : d = e := by
  have hall : ∀ x, x < 10 → ∀ y, y < 10 → Nat.digitChar x = Nat.digitChar y → x = y := by decide
  exact hall d hd e he h

theorem map_digitChar_inj : ∀ {l1 l2 : List Nat}, (∀ d ∈ l1, d < 10) → (∀ d ∈ l2, d < 10) →
    l1.map Nat.digitChar = l2.map Nat.digitChar → l1 = l2 := by
  intro l1
  induction l1 with
  | nil =>
    intro l2 _ _ h
    cases l2 with
    | nil => rfl
    | cons b bs => simp at h
  | cons a as ih =>
    intro l2 hb1 hb2 h
    cases l2 with
    | nil => simp at h
    | cons b bs =>
      simp only [List.map_cons, List.cons.injEq] at h
      have hab : a = b :=
        digitChar_inj_lt (hb1 a (by simp)) (hb2 b (by simp)) h.1
      rw [hab, ih (fun d hd => hb1 d (by simp [hd])) (fun d hd => hb2 d (by simp [hd])) h.2]

theorem natReprL_inj : ∀ {m n : Nat}, natReprL m = natReprL n → m = n := by
  intro m n h
  by_cases hm : m = 0
  · by_cases hn : n = 0
    · rw [hm, hn]
    · exfalso
      rw [hm, natReprL_eq_digits hn] at h
      rw [natReprL] at h
      simp only [if_pos rfl] at h
      have := congrArg List.reverse h
      simp only [List.reverse_reverse] at this
      cases hdig : Nat.digits 10 n with
      | nil => rw [Nat.digits_eq_nil_iff_eq_zero] at hdig; exact hn hdig
      | cons d ds =>
        rw [hdig] at this
        simp only [List.map_cons, List.reverse_cons] at this
        have hd10 : d < 10 := Nat.digits_lt_base (by norm_num) (by rw [hdig]; simp)
        cases ds with
        | nil =>
          simp at this
          have hd0 : d = 0 := by
            have : Nat.digitChar d = Char.ofNat 48 := this.symm
            have h48 : Nat.digitChar 0 = Char.ofNat 48 := by decide
            exact digitChar_inj_lt hd10 (by norm_num) (this.trans h48.symm)
          have : n = Nat.ofDigits 10 (Nat.digits 10 n) := (Nat.ofDigits_digits 10 n).symm
          rw [hdig, hd0] at this
          simp [Nat.ofDigits] at this
          exact hn this
        | cons e es => simp at this
  · by_cases hn : n = 0
    · exfalso
      rw [hn, natReprL_eq_digits hm] at h
      rw [natReprL] at h
      simp only [if_pos rfl] at h
      have := congrArg List.reverse h
      simp only [List.reverse_reverse] at this
      cases hdig : Nat.digits 10 m with
      | nil => rw [Nat.digits_eq_nil_iff_eq_zero] at hdig; exact hm hdig
      | cons d ds =>
        rw [hdig] at this
        simp only [List.map_cons, List.reverse_cons] at this
        have hd10 : d < 10 := Nat.digits_lt_base (by norm_num) (by rw [hdig]; simp)
        cases ds with
        | nil =>
          simp at this
          have hd0 : d = 0 := by
            have h48 : Nat.digitChar 0 = Char.ofNat 48 := by decide
            exact digitChar_inj_lt hd10 (by norm_num) (this.trans h48.symm)
          have hv : m = Nat.ofDigits 10 (Nat.digits 10 m) := (Nat.ofDigits_digits 10 m).symm
          rw [hdig, hd0] at hv
          simp [Nat.ofDigits] at hv
          exact hm hv
        | cons e es => simp at this
    · rw [natReprL_eq_digits hm, natReprL_eq_digits hn] at h
      have := congrArg List.reverse h
      simp only [List.reverse_reverse] at this
      have hdm : ∀ d ∈ Nat.digits 10 m, d < 10 := fun d hd =>
        Nat.digits_lt_base (by norm_num) hd
      have hdn : ∀ d ∈ Nat.digits 10 n, d < 10 := fun d hd =>
        Nat.digits_lt_base (by norm_num) hd
      have hde := map_digitChar_inj hdm hdn this
      have hm2 : m = Nat.ofDigits 10 (Nat.digits 10 m) := (Nat.ofDigits_digits 10 m).symm
      rw [hde, Nat.ofDigits_digits] at hm2
      exact hm2

theorem natReprL_isDigit {n : Nat} : ∀ c ∈ natReprL n, c.isDigit = true := by
  intro c hc
  by_cases h0 : n = 0
  · rw [h0] at hc
    simp [natReprL] at hc
    rw [hc]
    decide
  · rw [natReprL_eq_digits h0] at hc
    rw [List.mem_reverse] at hc
    obtain ⟨d, hd, rfl⟩ := List.mem_map.mp hc
    have hd10 : d < 10 := Nat.digits_lt_base (by norm_num) hd
    have : ∀ x, x < 10 → (Nat.digitChar x).isDigit = true := by decide
    exact this d hd10

theorem natReprL_ne_nil {n : Nat} : natReprL n ≠ [] := by
  by_cases h0 : n = 0
  · rw [h0]
    simp [natReprL]
  · rw [natReprL_eq_digits h0]
    simp only [ne_eq, List.reverse_eq_nil_iff, List.map_eq_nil_iff]
    rw [Nat.digits_eq_nil_iff_eq_zero]
    exact h0

theorem goodChar_of_isDigit {c : Char} (h : c.isDigit = true) : goodChar c = true := by
  simp only [goodChar, Char.isAlphanum, h, Bool.or_true, Bool.true_or]

theorem natReprL_good {n : Nat} : ∀ c ∈ natReprL n, goodChar c = true :=
  fun c hc => goodChar_of_isDigit (natReprL_isDigit c hc)

theorem append_sep_cancel {c : Char} : ∀ {l1 l2 r1 r2 : List Char},
    c ∉ l1 → c ∉ l2 → l1 ++ c :: r1 = l2 ++ c :: r2 → l1 = l2 ∧ r1 = r2 := by
  intro l1
  induction l1 with
  | nil =>
    intro l2 r1 r2 _ h2 h
    cases l2 with
    | nil =>
      simp only [List.nil_append, List.cons.injEq] at h
      exact ⟨rfl, h.2⟩
    | cons b bs =>
      simp only [List.nil_append, List.cons_append, List.cons.injEq] at h
      exact absurd (h.1 ▸ List.mem_cons_self b bs) h2
  | cons a as ih =>
    intro l2 r1 r2 h1 h2 h
    cases l2 with
    | nil =>
      simp only [List.cons_append, List.nil_append, List.cons.injEq] at h
      exact absurd (h.1.symm ▸ List.mem_cons_self a as) h1
    | cons b bs =>
      simp only [List.cons_append, List.cons.injEq] at h
      obtain ⟨hab, htail⟩ := h
      have h1a : c ∉ as := fun hm => h1 (List.mem_cons_of_mem a hm)
      have h2a : c ∉ bs := fun hm => h2 (List.mem_cons_of_mem b hm)
      obtain ⟨hl, hr⟩ := ih h1a h2a htail
      exact ⟨by rw [hab, hl], hr⟩

theorem joinCommaL_inj : ∀ {ts1 ts2 : List (List Char)},
    (∀ t ∈ ts1, t ≠ [] ∧ (',' : Char) ∉ t) → (∀ t ∈ ts2, t ≠ [] ∧ (',' : Char) ∉ t) →
    joinCommaL ts1 = joinCommaL ts2 → ts1 = ts2 := by
  intro ts1
  induction ts1 with
  | nil =>
    intro ts2 _ hw2 h
    cases ts2 with
    | nil => rfl
    | cons t2 r2 =>
      cases r2 with
      | nil =>
        exact absurd h.symm (hw2 t2 (by simp)).1
      | cons t2b r2b =>
        simp only [joinCommaL] at h
        exact absurd (List.append_eq_nil.mp h.symm).2 (by simp)
  | cons t1 r1 ih =>
    intro ts2 hw1 hw2 h
    cases ts2 with
    | nil =>
      cases r1 with
      | nil => exact absurd h (hw1 t1 (by simp)).1
      | cons t1b r1b =>
        simp only [joinCommaL] at h
        exact absurd (List.append_eq_nil.mp h).2 (by simp)
    | cons t2 r2 =>
      cases r1 with
      | nil =>
        cases r2 with
        | nil =>
          simp only [joinCommaL] at h
          rw [h]
        | cons t2b r2b =>
          simp only [joinCommaL] at h
          have : (',' : Char) ∈ t1 := by
            rw [h]
            exact List.mem_append_right t2 (by simp)
          exact absurd this (hw1 t1 (by simp)).2
      | cons t1b r1b =>
        cases r2 with
        | nil =>
          simp only [joinCommaL] at h
          have : (',' : Char) ∈ t2 := by
            rw [← h]
            exact List.mem_append_right t1 (by simp)
          exact absurd this (hw2 t2 (by simp)).2
        | cons t2b r2b =>
          simp only [joinCommaL] at h
          obtain ⟨he, ht⟩ := append_sep_cancel (hw1 t1 (by simp)).2 (hw2 t2 (by simp)).2 h
          have ht2 : joinCommaL (t1b :: r1b) = joinCommaL (t2b :: r2b) :=
            List.tail_eq_of_cons_eq ht
          have := ih (fun t htm => hw1 t (by simp [htm])) (fun t htm => hw2 t (by simp [htm])) ht2
          rw [he, this]

theorem joinTupleTokens_inj : ∀ {bs1 bs2 : List (List Char)},
    (∀ b ∈ bs1, (')' : Char) ∉ b) → (∀ b ∈ bs2, (')' : Char) ∉ b) →
    joinTupleTokens bs1 = joinTupleTokens bs2 → bs1 = bs2 := by
  intro bs1
  induction bs1 with
  | nil =>
    intro bs2 _ _ h
    cases bs2 with
    | nil => rfl
    | cons b2 r2 =>
      cases r2 with
      | nil =>
        simp only [joinTupleTokens] at h
        exact absurd (List.append_eq_nil.mp h.symm).2 (by simp)
      | cons b2b r2b =>
        simp only [joinTupleTokens] at h
        exact absurd (List.append_eq_nil.mp h.symm).2 (by simp)
  | cons b1 r1 ih =>
    intro bs2 hw1 hw2 h
    cases bs2 with
    | nil =>
      cases r1 with
      | nil =>
        simp only [joinTupleTokens] at h
        exact absurd (List.append_eq_nil.mp h).2 (by simp)
      | cons b1b r1b =>
        simp only [joinTupleTokens] at h
        exact absurd (List.append_eq_nil.mp h).2 (by simp)
    | cons b2 r2 =>
      cases r1 with
      | nil =>
        cases r2 with
        | nil =>
          simp only [joinTupleTokens] at h
          obtain ⟨he, -⟩ := append_sep_cancel (hw1 b1 (by simp)) (hw2 b2 (by simp)) h
          rw [he]
        | cons b2b r2b =>
          simp only [joinTupleTokens] at h
          obtain ⟨-, ht⟩ := append_sep_cancel (hw1 b1 (by simp)) (hw2 b2 (by simp)) h
          cases ht
      | cons b1b r1b =>
        cases r2 with
        | nil =>
          simp only [joinTupleTokens] at h
          obtain ⟨-, ht⟩ := append_sep_cancel (hw1 b1 (by simp)) (hw2 b2 (by simp)) h
          cases ht
        | cons b2b r2b =>
          simp only [joinTupleTokens] at h
          obtain ⟨he, ht⟩ := append_sep_cancel (hw1 b1 (by simp)) (hw2 b2 (by simp)) h
          have ht2 : joinTupleTokens (b1b :: r1b) = joinTupleTokens (b2b :: r2b) :=
            List.tail_eq_of_cons_eq (List.tail_eq_of_cons_eq ht)
          have := ih (fun b hbm => hw1 b (by simp [hbm])) (fun b hbm => hw2 b (by simp [hbm])) ht2
          rw [he, this]

theorem intReprL_chars : ∀ {i : Int}, ∀ c ∈ intReprL i, c.isDigit = true ∨ c = '-' := by
  intro i c hc
  cases i with
  | ofNat n => exact Or.inl (natReprL_isDigit c hc)
  | negSucc n =>
    simp only [intReprL, List.mem_cons] at hc
    rcases hc with hc | hc
    · exact Or.inr hc
    · exact Or.inl (natReprL_isDigit c hc)

theorem intReprL_inj : ∀ {i j : Int}, intReprL i = intReprL j → i = j := by
  intro i j h
  cases i with
  | ofNat n =>
    cases j with
    | ofNat m => rw [natReprL_inj (h : natReprL n = natReprL m)]
    | negSucc m =>
      exfalso
      simp only [intReprL] at h
      have : ('-' : Char) ∈ natReprL n := h ▸ List.mem_cons_self _ _
      have hd := natReprL_isDigit _ this
      simp at hd
  | negSucc n =>
    cases j with
    | ofNat m =>
      exfalso
      simp only [intReprL] at h
      have : ('-' : Char) ∈ natReprL m := h ▸ List.mem_cons_self _ _
      have hd := natReprL_isDigit _ this
      simp at hd
    | negSucc m =>
      simp only [intReprL, List.cons.injEq] at h
      have h2 := natReprL_inj h.2
      have : n = m := by omega
      rw [this]

theorem intReprL_head : ∀ (i : Int), ∃ c l, intReprL i = c :: l ∧
    (c.isDigit = true ∨ c = '-') := by
  intro i
  have hne : intReprL i ≠ [] := by
    cases i with
    | ofNat n => exact natReprL_ne_nil
    | negSucc n => simp [intReprL]
  cases hc : intReprL i with
  | nil => exact absurd hc hne
  | cons c l => exact ⟨c, l, rfl, intReprL_chars c (hc ▸ List.mem_cons_self c l)⟩

theorem pyValReprL_inj : ∀ {v1 v2 : PyVal}, WfVal v1 → WfVal v2 →
    pyValReprL v1 = pyValReprL v2 → v1 = v2 := by
  intro v1 v2 w1 w2 h
  cases v1 with
  | pyBool b1 =>
    cases v2 with
    | pyBool b2 =>
      have hs : pyBoolStr b1 = pyBoolStr b2 := String.ext h
      cases b1 <;> cases b2 <;> first | rfl | exact absurd hs (by decide)
    | pyInt i2 =>
      exfalso
      obtain ⟨c, l, hcl, hprop⟩ := intReprL_head i2
      rw [show pyValReprL (PyVal.pyInt i2) = intReprL i2 from rfl, hcl] at h
      cases b1
      · rw [show pyValReprL (PyVal.pyBool false) = 'F' :: ['a', 'l', 's', 'e'] from by decide] at h
        injection h with h1 h2
        rw [← h1] at hprop
        rcases hprop with hd | hd
        · exact absurd hd (by decide)
        · exact absurd hd (by decide)
      · rw [show pyValReprL (PyVal.pyBool true) = 'T' :: ['r', 'u', 'e'] from by decide] at h
        injection h with h1 h2
        rw [← h1] at hprop
        rcases hprop with hd | hd
        · exact absurd hd (by decide)
        · exact absurd hd (by decide)
    | pyStr s2 =>
      exfalso
      rw [show pyValReprL (PyVal.pyStr s2)
            = Char.ofNat 39 :: (s2.data ++ [Char.ofNat 39]) from rfl] at h
      cases b1
      · rw [show pyValReprL (PyVal.pyBool false) = 'F' :: ['a', 'l', 's', 'e'] from by decide] at h
        injection h with h1 h2
        exact absurd h1 (by decide)
      · rw [show pyValReprL (PyVal.pyBool true) = 'T' :: ['r', 'u', 'e'] from by decide] at h
        injection h with h1 h2
        exact absurd h1 (by decide)
  | pyInt i1 =>
    cases v2 with
    | pyBool b2 =>
      exfalso
      obtain ⟨c, l, hcl, hprop⟩ := intReprL_head i1
      rw [show pyValReprL (PyVal.pyInt i1) = intReprL i1 from rfl, hcl] at h
      cases b2
      · rw [show pyValReprL (PyVal.pyBool false) = 'F' :: ['a', 'l', 's', 'e'] from by decide] at h
        injection h with h1 h2
        rw [h1] at hprop
        rcases hprop with hd | hd
        · exact absurd hd (by decide)
        · exact absurd hd (by decide)
      · rw [show pyValReprL (PyVal.pyBool true) = 'T' :: ['r', 'u', 'e'] from by decide] at h
        injection h with h1 h2
        rw [h1] at hprop
        rcases hprop with hd | hd
        · exact absurd hd (by decide)
        · exact absurd hd (by decide)
    | pyInt i2 => rw [intReprL_inj (h : intReprL i1 = intReprL i2)]
    | pyStr s2 =>
      exfalso
      obtain ⟨c, l, hcl, hprop⟩ := intReprL_head i1
      rw [show pyValReprL (PyVal.pyInt i1) = intReprL i1 from rfl, hcl,
        show pyValReprL (PyVal.pyStr s2)
          = Char.ofNat 39 :: (s2.data ++ [Char.ofNat 39]) from rfl] at h
      injection h with h1 h2
      rw [h1] at hprop
      rcases hprop with hd | hd
      · exact absurd hd (by decide)
      · exact absurd hd (by decide)
  | pyStr s1 =>
    cases v2 with
    | pyBool b2 =>
      exfalso
      rw [show pyValReprL (PyVal.pyStr s1)
            = Char.ofNat 39 :: (s1.data ++ [Char.ofNat 39]) from rfl] at h
      cases b2
      · rw [show pyValReprL (PyVal.pyBool false) = 'F' :: ['a', 'l', 's', 'e'] from by decide] at h
        injection h with h1 h2
        exact absurd h1 (by decide)
      · rw [show pyValReprL (PyVal.pyBool true) = 'T' :: ['r', 'u', 'e'] from by decide] at h
        injection h with h1 h2
        exact absurd h1 (by decide)
    | pyInt i2 =>
      exfalso
      obtain ⟨c, l, hcl, hprop⟩ := intReprL_head i2
      rw [show pyValReprL (PyVal.pyStr s1)
            = Char.ofNat 39 :: (s1.data ++ [Char.ofNat 39]) from rfl,
        show pyValReprL (PyVal.pyInt i2) = intReprL i2 from rfl, hcl] at h
      injection h with h1 h2
      rw [← h1] at hprop
      rcases hprop with hd | hd
      · exact absurd hd (by decide)
      · exact absurd hd (by decide)
    | pyStr s2 =>
      rw [show pyValReprL (PyVal.pyStr s1)
            = Char.ofNat 39 :: (s1.data ++ [Char.ofNat 39]) from rfl,
        show pyValReprL (PyVal.pyStr s2)
          = Char.ofNat 39 :: (s2.data ++ [Char.ofNat 39]) from rfl] at h
      injection h with h1 h2
      have := List.append_cancel_right h2
      rw [String.ext this]

theorem not_mem_of_good {l : List Char} (hg : ∀ c ∈ l, goodChar c = true) {c : Char}
    (hc : goodChar c = false) : c ∉ l := by
  intro hm
  rw [hg c hm] at hc
  cases hc

theorem pyValReprL_chars {v : PyVal} (hv : WfVal v) :
    ∀ c ∈ pyValReprL v, goodChar c = true ∨ c = Char.ofNat 39 := by
  intro c hc
  cases v with
  | pyBool b =>
    left
    cases b
    · exact (by decide : ∀ c ∈ pyValReprL (PyVal.pyBool false), goodChar c = true) c hc
    · exact (by decide : ∀ c ∈ pyValReprL (PyVal.pyBool true), goodChar c = true) c hc
  | pyInt i =>
    left
    rcases intReprL_chars c hc with hd | hd
    · exact goodChar_of_isDigit hd
    · rw [hd]
      decide
  | pyStr s =>
    simp only [pyValReprL, List.cons_append, List.mem_cons, List.mem_append,
      List.mem_singleton] at hc
    rcases hc with hc | hc | hc | hc
    · exact Or.inr hc
    · exact Or.inl (hv c hc)
    · exact Or.inr hc
    · cases hc

theorem paramItemBody_no_rparen {kv : String × PyVal} (hk : GoodString kv.1)
    (hv : WfVal kv.2) : (')' : Char) ∉ paramItemBody kv := by
  intro hm
  simp only [paramItemBody, List.cons_append, List.mem_cons, List.mem_append,
    List.mem_cons] at hm
  rcases hm with hm | hm | hm | hm | hm | hm
  · cases hm
  · exact absurd hm (by decide)
  · exact absurd (hk _ hm) (by decide)
  · exact absurd hm (by decide)
  · cases hm
  · rcases hm with hm | hm
    · cases hm
    · rcases pyValReprL_chars hv _ hm with hg | hg
      · exact absurd hg (by decide)
      · exact absurd hg (by decide)

theorem paramItemBody_inj {kv1 kv2 : String × PyVal} (h1k : GoodString kv1.1)
    (h1v : WfVal kv1.2) (h2k : GoodString kv2.1) (h2v : WfVal kv2.2)
    (h : paramItemBody kv1 = paramItemBody kv2) : kv1 = kv2 := by
  simp only [paramItemBody, List.cons_append, List.append_assoc] at h
  have h2 := List.tail_eq_of_cons_eq (List.tail_eq_of_cons_eq h)
  have hq1 : Char.ofNat 39 ∉ kv1.1.data := not_mem_of_good h1k (by decide)
  have hq2 : Char.ofNat 39 ∉ kv2.1.data := not_mem_of_good h2k (by decide)
  obtain ⟨hkeys, hrest⟩ := append_sep_cancel hq1 hq2 h2
  have hv := List.tail_eq_of_cons_eq (List.tail_eq_of_cons_eq hrest)
  have hveq := pyValReprL_inj h1v h2v hv
  have hkeq : kv1.1 = kv2.1 := String.ext hkeys
  exact Prod.ext hkeq hveq

theorem map_paramItemBody_inj : ∀ {l1 l2 : List (String × PyVal)},
    (∀ kv ∈ l1, GoodString kv.1 ∧ WfVal kv.2) → (∀ kv ∈ l2, GoodString kv.1 ∧ WfVal kv.2) →
    l1.map paramItemBody = l2.map paramItemBody → l1 = l2 := by
  intro l1
  induction l1 with
  | nil =>
    intro l2 _ _ h
    cases l2 with
    | nil => rfl
    | cons b bs => simp at h
  | cons a as ih =>
    intro l2 hw1 hw2 h
    cases l2 with
    | nil => simp at h
    | cons b bs =>
      simp only [List.map_cons, List.cons.injEq] at h
      have hhead := paramItemBody_inj (hw1 a (by simp)).1 (hw1 a (by simp)).2
        (hw2 b (by simp)).1 (hw2 b (by simp)).2 h.1
      have htail := ih (fun kv hkv => hw1 kv (by simp [hkv]))
        (fun kv hkv => hw2 kv (by simp [hkv])) h.2
      rw [hhead, htail]

theorem renderItems_inj {l1 l2 : List (String × PyVal)}
    (w1 : ∀ kv ∈ l1, GoodString kv.1 ∧ WfVal kv.2)
    (w2 : ∀ kv ∈ l2, GoodString kv.1 ∧ WfVal kv.2)
    (h : renderItems l1 = renderItems l2) : l1 = l2 := by
  have hd := congrArg String.data h
  simp only [renderItems, List.cons_append] at hd
  have hd2 := List.tail_eq_of_cons_eq hd
  have hd3 := List.append_cancel_right hd2
  have hj := joinTupleTokens_inj
    (by
      intro b hb
      obtain ⟨kv, hkv, rfl⟩ := List.mem_map.mp hb
      exact paramItemBody_no_rparen (w1 kv hkv).1 (w1 kv hkv).2)
    (by
      intro b hb
      obtain ⟨kv, hkv, rfl⟩ := List.mem_map.mp hb
      exact paramItemBody_no_rparen (w2 kv hkv).1 (w2 kv hkv).2)
    hd3
  exact map_paramItemBody_inj w1 w2 hj

theorem strSortedItems_eq_of_map_eq {p1 p2 : List (String × PyVal)}
    (h1 : (p1.map Prod.fst).Nodup) (h2 : (p2.map Prod.fst).Nodup)
    (hm : ∀ k, alLookup k p1 = alLookup k p2) :
    strSortedItems p1 = strSortedItems p2 := by
  unfold strSortedItems
  rw [sortItems_eq_of_map_eq h1 h2 hm]

theorem map_eq_of_strSortedItems_eq {p1 p2 : List (String × PyVal)}
    (w1 : WfParams p1) (w2 : WfParams p2)
    (h : strSortedItems p1 = strSortedItems p2) :
    ∀ k, alLookup k p1 = alLookup k p2 := by
  have hwf1 : ∀ kv ∈ sortItems p1, GoodString kv.1 ∧ WfVal kv.2 := by
    intro kv hkv
    exact w1.1 kv ((sortItems_perm p1).mem_iff.mp hkv)
  have hwf2 : ∀ kv ∈ sortItems p2, GoodString kv.1 ∧ WfVal kv.2 := by
    intro kv hkv
    exact w2.1 kv ((sortItems_perm p2).mem_iff.mp hkv)
  have hsort := renderItems_inj hwf1 hwf2 h
  exact map_eq_of_sortItems_eq w1.2 w2.2 hsort

theorem numItemTok_inj {kv1 kv2 : Nat × Nat} (h : numItemTok kv1 = numItemTok kv2) :
    kv1 = kv2 := by
  unfold numItemTok at h
  have hc1 : (':' : Char) ∉ natReprL kv1.1 := not_mem_of_good natReprL_good (by decide)
  have hc2 : (':' : Char) ∉ natReprL kv2.1 := not_mem_of_good natReprL_good (by decide)
  obtain ⟨hk, hrest⟩ := append_sep_cancel hc1 hc2 h
  have hv := List.tail_eq_of_cons_eq hrest
  exact Prod.ext (natReprL_inj hk) (natReprL_inj hv)

theorem numItemTok_wf (kv : Nat × Nat) : numItemTok kv ≠ [] ∧ (',' : Char) ∉ numItemTok kv := by
  constructor
  · intro hn
    unfold numItemTok at hn
    obtain ⟨-, hn2⟩ := List.append_eq_nil.mp hn
    cases hn2
  · intro hm
    unfold numItemTok at hm
    rcases List.mem_append.mp hm with hm | hm
    · exact absurd (natReprL_good _ hm) (by decide)
    · rcases hm with _ | ⟨-, hm⟩
      rcases hm with _ | ⟨-, hm⟩
      exact absurd (natReprL_good _ hm) (by decide)

theorem map_numItemTok_inj : ∀ {l1 l2 : List (Nat × Nat)},
    l1.map numItemTok = l2.map numItemTok → l1 = l2 := by
  intro l1
  induction l1 with
  | nil =>
    intro l2 h
    cases l2 with
    | nil => rfl
    | cons b bs => simp at h
  | cons a as ih =>
    intro l2 h
    cases l2 with
    | nil => simp at h
    | cons b bs =>
      simp only [List.map_cons, List.cons.injEq] at h
      rw [numItemTok_inj h.1, ih h.2]

theorem strNumDict_inj {m1 m2 : List (Nat × Nat)} (h : strNumDict m1 = strNumDict m2) :
    m1 = m2 := by
  have hd := congrArg String.data h
  simp only [strNumDict, List.cons_append] at hd
  have hd2 := List.tail_eq_of_cons_eq hd
  have hd3 := List.append_cancel_right hd2
  have hj := joinCommaL_inj
    (by
      intro t ht
      obtain ⟨kv, hkv, rfl⟩ := List.mem_map.mp ht
      exact numItemTok_wf kv)
    (by
      intro t ht
      obtain ⟨kv, hkv, rfl⟩ := List.mem_map.mp ht
      exact numItemTok_wf kv)
    hd3
  exact map_numItemTok_inj hj

theorem optNatTok_good (o : Option Nat) : ∀ c ∈ optNatTok o, goodChar c = true := by
  intro c hc
  cases o with
  | none => exact (by decide : ∀ c ∈ optNatTok none, goodChar c = true) c hc
  | some n => exact natReprL_good c hc

theorem optNatTok_wf (o : Option Nat) : optNatTok o ≠ [] ∧ (',' : Char) ∉ optNatTok o := by
  constructor
  · cases o with
    | none => simp [optNatTok]
    | some n => exact natReprL_ne_nil
  · exact not_mem_of_good (optNatTok_good o) (by decide)

theorem optNatTok_inj : ∀ {o1 o2 : Option Nat}, optNatTok o1 = optNatTok o2 → o1 = o2 := by
  intro o1 o2 h
  cases o1 with
  | none =>
    cases o2 with
    | none => rfl
    | some n =>
      exfalso
      have : ('N' : Char) ∈ natReprL n := by
        rw [show optNatTok (some n) = natReprL n from rfl] at h
        exact h ▸ List.mem_cons_self _ _
      exact absurd (natReprL_isDigit _ this) (by decide)
  | some m =>
    cases o2 with
    | none =>
      exfalso
      have : ('N' : Char) ∈ natReprL m := by
        rw [show optNatTok (some m) = natReprL m from rfl] at h
        exact h.symm ▸ List.mem_cons_self _ _
      exact absurd (natReprL_isDigit _ this) (by decide)
    | some n => rw [natReprL_inj (h : natReprL m = natReprL n)]

theorem map_optNatTok_inj : ∀ {l1 l2 : List (Option Nat)},
    l1.map optNatTok = l2.map optNatTok → l1 = l2 := by
  intro l1
  induction l1 with
  | nil =>
    intro l2 h
    cases l2 with
    | nil => rfl
    | cons b bs => simp at h
  | cons a as ih =>
    intro l2 h
    cases l2 with
    | nil => simp at h
    | cons b bs =>
      simp only [List.map_cons, List.cons.injEq] at h
      rw [optNatTok_inj h.1, ih h.2]

theorem strIdx_inj : ∀ {i1 i2 : Option (List (Option Nat))}, strIdx i1 = strIdx i2 → i1 = i2 := by
  have hnone : ∀ (l : List (Option Nat)), strIdx none ≠ strIdx (some l) := by
    intro l h
    have hd := congrArg String.data h
    rw [show (strIdx none).data = 'N' :: ['o', 'n', 'e'] from by decide] at hd
    cases l with
    | nil =>
      rw [show (strIdx (some [])).data = ['(', ')'] from by decide] at hd
      cases hd
    | cons x xs =>
      cases xs with
      | nil =>
        simp only [strIdx, List.cons_append] at hd
        injection hd with h1 h2
        exact absurd h1 (by decide)
      | cons y r =>
        simp only [strIdx, List.cons_append] at hd
        injection hd with h1 h2
        exact absurd h1 (by decide)
  intro i1 i2 h
  cases i1 with
  | none =>
    cases i2 with
    | none => rfl
    | some l2 => exact absurd h (hnone l2)
  | some l1 =>
    cases i2 with
    | none => exact absurd h.symm (hnone l1)
    | some l2 =>
      have hd := congrArg String.data h
      cases l1 with
      | nil =>
        cases l2 with
        | nil => rfl
        | cons x2 r2 =>
          exfalso
          rw [show (strIdx (some [])).data = ['(', ')'] from by decide] at hd
          cases r2 with
          | nil =>
            simp only [strIdx, List.cons_append] at hd
            have ht := List.tail_eq_of_cons_eq hd
            have := congrArg List.length ht
            simp [List.length_append] at this
          | cons y2 s2 =>
            simp only [strIdx, List.cons_append] at hd
            have ht := List.tail_eq_of_cons_eq hd
            have := congrArg List.length ht
            simp only [List.length_append, List.length_cons, List.length_singleton] at this
            cases hj : joinCommaL (List.map optNatTok (x2 :: y2 :: s2)) with
            | nil =>
              simp only [joinCommaL, List.map_cons] at hj
              obtain ⟨-, hj2⟩ := List.append_eq_nil.mp hj
              cases hj2
            | cons c cs =>
              rw [hj] at this
              simp at this
      | cons x1 r1 =>
        cases l2 with
        | nil =>
          exfalso
          rw [show (strIdx (some [])).data = ['(', ')'] from by decide] at hd
          cases r1 with
          | nil =>
            simp only [strIdx, List.cons_append] at hd
            have ht := List.tail_eq_of_cons_eq hd.symm
            have := congrArg List.length ht
            simp [List.length_append] at this
          | cons y1 s1 =>
            simp only [strIdx, List.cons_append] at hd
            have ht := List.tail_eq_of_cons_eq hd.symm
            have := congrArg List.length ht
            simp only [List.length_append, List.length_cons, List.length_singleton] at this
            cases hj : joinCommaL (List.map optNatTok (x1 :: y1 :: s1)) with
            | nil =>
              simp only [joinCommaL, List.map_cons] at hj
              obtain ⟨-, hj2⟩ := List.append_eq_nil.mp hj
              cases hj2
            | cons c cs =>
              rw [hj] at this
              simp at this
        | cons x2 r2 =>
          cases r1 with
          | nil =>
            cases r2 with
            | nil =>
              simp only [strIdx, List.cons_append] at hd
              have ht := List.tail_eq_of_cons_eq hd
              obtain ⟨htok, -⟩ := append_sep_cancel (optNatTok_wf x1).2 (optNatTok_wf x2).2 ht
              rw [optNatTok_inj htok]
            | cons y2 s2 =>
              exfalso
              simp only [strIdx, List.cons_append, joinCommaL, List.map_cons,
                List.append_assoc] at hd
              have ht := List.tail_eq_of_cons_eq hd
              obtain ⟨-, hrest⟩ := append_sep_cancel (optNatTok_wf x1).2 (optNatTok_wf x2).2 ht
              injection hrest with hsp _
              exact absurd hsp (by decide)
          | cons y1 s1 =>
            cases r2 with
            | nil =>
              exfalso
              simp only [strIdx, List.cons_append, joinCommaL, List.map_cons,
                List.append_assoc] at hd
              have ht := List.tail_eq_of_cons_eq hd
              obtain ⟨-, hrest⟩ := append_sep_cancel (optNatTok_wf x1).2 (optNatTok_wf x2).2 ht
              injection hrest with hsp _
              exact absurd hsp.symm (by decide)
            | cons y2 s2 =>
              simp only [strIdx, List.cons_append] at hd
              have ht := List.tail_eq_of_cons_eq hd
              have hjoin := List.append_cancel_right ht
              have hmap := joinCommaL_inj
                (by
                  intro t htm
                  obtain ⟨o, ho, rfl⟩ := List.mem_map.mp htm
                  exact optNatTok_wf o)
                (by
                  intro t htm
                  obtain ⟨o, ho, rfl⟩ := List.mem_map.mp htm
                  exact optNatTok_wf o)
                hjoin
              rw [map_optNatTok_inj hmap]

theorem pyBoolStr_inj {b1 b2 : Bool} (h : pyBoolStr b1 = pyBoolStr b2) : b1 = b2 := by
  cases b1 <;> cases b2 <;> first | rfl | exact absurd h (by decide)

theorem cacheKey_data (A : CacheKeyArgs) : (cacheKeyString A).data =
    A.sig.data ++ (A.name.data ++ ((strSortedItems coffeeDefaults).data
      ++ ((strSortedItems A.parameters).data ++ ((strNumDict A.number_map).data
      ++ ((strNumDict A.subspace_number_map).data ++ ((strTypeOf A.interface).data
      ++ ((pyBoolStr A.coffee).data ++ ((strIdx A.idx).data
      ++ (pyBoolStr A.diagonal).data)))))))) := by
  simp [cacheKeyString, String.data_append, List.append_assoc]

/-- Claim C1 counterexample: the digest is not a function of the coefficient
map alone.  Two coefficient number maps that are equal as dicts (the same
key-to-value mapping) but were built in different insertion orders — here 0
to 1 then 1 to 0, versus 1 to 0 then 0 to 1 — give different digests with
every other input held fixed, because the source hashes the raw
str(number_map), which follows insertion order, instead of a canonicalised
rendering. -/
theorem cache_key_number_map_order_counterexample :
    (∀ k, alLookup k exArgsA.number_map = alLookup k ([(1, 0), (0, 1)] : List (Nat × Nat))) ∧
    cache_key_digest exArgsA ≠
      cache_key_digest { exArgsA with number_map := [(1, 0), (0, 1)] } := by
  constructor
  · exact fun k => match k with
      | 0 => rfl
      | 1 => rfl
      | (n + 2) => rfl
  · decide

/-- Claim C1 (amended): the digest of TSFCKernel._cache_key is deterministic
in its inputs: equal signature strings, equal names, parameter dicts that are
equal as key-value mappings (in any insertion order), coefficient and
subspace number maps with identical entry order, and equal interface,
backend selector, split index and diagonal flag yield identical digests
regardless of process or object identity.  The amendment: the two number
maps must agree as ordered association lists (identical insertion order),
not merely as mappings, because the source hashes their raw str(); the
parameters dict is sorted by the source, so its insertion order remains
irrelevant. -/
theorem cache_key_deterministic (A B : CacheKeyArgs)
    (hsig : A.sig = B.sig) (hname : A.name = B.name)
    (hn1 : (A.parameters.map Prod.fst).Nodup) (hn2 : (B.parameters.map Prod.fst).Nodup)
    (hp : ∀ k, alLookup k A.parameters = alLookup k B.parameters)
    (hnm : A.number_map = B.number_map)
    (hsm : A.subspace_number_map = B.subspace_number_map)
    (hi : A.interface = B.interface) (hc : A.coffee = B.coffee)
    (hidx : A.idx = B.idx) (hdg : A.diagonal = B.diagonal) :
    cache_key_digest A = cache_key_digest B := by
  unfold cache_key_digest md5_hexdigest cacheKeyString
  rw [hsig, hname, hnm, hsm, hi, hc, hidx, hdg, strSortedItems_eq_of_map_eq hn1 hn2 hp]

/-- Witness for the amended C1 theorem at concrete inputs: the same parameter
dict built in two different insertion orders gives the same digest. -/
theorem cache_key_deterministic_witness :
    cache_key_digest
      { sig := "s", name := "n",
        parameters := [("a", PyVal.pyInt 1), ("b", PyVal.pyBool true)],
        number_map := [(0, 0)], subspace_number_map := [],
        interface := PyInterface.pyNone, coffee := false, idx := none, diagonal := false }
    = cache_key_digest
      { sig := "s", name := "n",
        parameters := [("b", PyVal.pyBool true), ("a", PyVal.pyInt 1)],
        number_map := [(0, 0)], subspace_number_map := [],
        interface := PyInterface.pyNone, coffee := false, idx := none, diagonal := false } := by
  apply cache_key_deterministic <;>
    first
    | rfl
    | decide
    | (intro k
       by_cases ha : k = "a"
       · subst ha
         rfl
       · by_cases hb : k = "b"
         · subst hb
           rfl
         · simp [alLookup, ha, hb])

/-- Claim C2 counterexample: changing the interface argument between two
different KernelBuilder classes does not change the digest, because the
source hashes str(type(interface)) and the type of any class is the one
metaclass type — the digest only distinguishes a None interface from a
class-valued one. -/
theorem cache_key_interface_insensitive_counterexample :
    cache_key_digest exArgsB
      = cache_key_digest { exArgsB with interface := PyInterface.cls "KernelBuilderB" } ∧
    (PyInterface.cls "KernelBuilderA" : PyInterface) ≠ PyInterface.cls "KernelBuilderB" :=
  ⟨rfl, by decide⟩

/-- Claim C2 (amended): with every other input of TSFCKernel._cache_key held
fixed, the digest changes whenever any one of the following changes: the
parameters dict as a key-value mapping (for well-formed dicts), the
coefficient number map (as an ordered association list), the subspace number
map, the backend selector, the split index, or the diagonal flag.  The
amendment: for the interface, only the distinction between a missing (None)
interface and a class-valued one changes the digest; two distinct
KernelBuilder classes hash identically since str(type(interface)) is the
metaclass rendering for every class. -/
theorem cache_key_sensitivity :
    (∀ (A : CacheKeyArgs) (p2 : List (String × PyVal)), WfParams A.parameters → WfParams p2 →
      ¬(∀ k, alLookup k A.parameters = alLookup k p2) →
      cache_key_digest A ≠ cache_key_digest { A with parameters := p2 })
    ∧ (∀ (A : CacheKeyArgs) (m2 : List (Nat × Nat)), A.number_map ≠ m2 →
      cache_key_digest A ≠ cache_key_digest { A with number_map := m2 })
    ∧ (∀ (A : CacheKeyArgs) (m2 : List (Nat × Nat)), A.subspace_number_map ≠ m2 →
      cache_key_digest A ≠ cache_key_digest { A with subspace_number_map := m2 })
    ∧ (∀ (A : CacheKeyArgs) (i2 : PyInterface),
      ¬(A.interface = PyInterface.pyNone ↔ i2 = PyInterface.pyNone) →
      cache_key_digest A ≠ cache_key_digest { A with interface := i2 })
    ∧ (∀ (A : CacheKeyArgs) (b2 : Bool), A.coffee ≠ b2 →
      cache_key_digest A ≠ cache_key_digest { A with coffee := b2 })
    ∧ (∀ (A : CacheKeyArgs) (i2 : Option (List (Option Nat))), A.idx ≠ i2 →
      cache_key_digest A ≠ cache_key_digest { A with idx := i2 })
    ∧ (∀ (A : CacheKeyArgs) (d2 : Bool), A.diagonal ≠ d2 →
      cache_key_digest A ≠ cache_key_digest { A with diagonal := d2 }) := by
  refine ⟨?_, ?_, ?_, ?_, ?_, ?_, ?_⟩
  · intro A p2 w1 w2 hne hdig
    apply hne
    unfold cache_key_digest md5_hexdigest at hdig
    have hd := congrArg String.data hdig
    rw [cacheKey_data, cacheKey_data] at hd
    replace hd := List.append_cancel_left hd
    replace hd := List.append_cancel_left hd
    replace hd := List.append_cancel_left hd
    replace hd := List.append_cancel_right hd
    exact map_eq_of_strSortedItems_eq w1 w2 (String.ext hd)
  · intro A m2 hne hdig
    apply hne
    unfold cache_key_digest md5_hexdigest at hdig
    have hd := congrArg String.data hdig
    rw [cacheKey_data, cacheKey_data] at hd
    replace hd := List.append_cancel_left hd
    replace hd := List.append_cancel_left hd
    replace hd := List.append_cancel_left hd
    replace hd := List.append_cancel_left hd
    replace hd := List.append_cancel_right hd
    exact strNumDict_inj (String.ext hd)
  · intro A m2 hne hdig
    apply hne
    unfold cache_key_digest md5_hexdigest at hdig
    have hd := congrArg String.data hdig
    rw [cacheKey_data, cacheKey_data] at hd
    replace hd := List.append_cancel_left hd
    replace hd := List.append_cancel_left hd
    replace hd := List.append_cancel_left hd
    replace hd := List.append_cancel_left hd
    replace hd := List.append_cancel_left hd
    replace hd := List.append_cancel_right hd
    exact strNumDict_inj (String.ext hd)
  · intro A i2 hne hdig
    apply hne
    unfold cache_key_digest md5_hexdigest at hdig
    have hd := congrArg String.data hdig
    rw [cacheKey_data, cacheKey_data] at hd
    replace hd := List.append_cancel_left hd
    replace hd := List.append_cancel_left hd
    replace hd := List.append_cancel_left hd
    replace hd := List.append_cancel_left hd
    replace hd := List.append_cancel_left hd
    replace hd := List.append_cancel_left hd
    replace hd := List.append_cancel_right hd
    have hty : strTypeOf A.interface = strTypeOf i2 := String.ext hd
    cases hA : A.interface <;> cases hB : i2 <;> simp_all [strTypeOf]
  · intro A b2 hne hdig
    apply hne
    unfold cache_key_digest md5_hexdigest at hdig
    have hd := congrArg String.data hdig
    rw [cacheKey_data, cacheKey_data] at hd
    replace hd := List.append_cancel_left hd
    replace hd := List.append_cancel_left hd
    replace hd := List.append_cancel_left hd
    replace hd := List.append_cancel_left hd
    replace hd := List.append_cancel_left hd
    replace hd := List.append_cancel_left hd
    replace hd := List.append_cancel_left hd
    replace hd := List.append_cancel_right hd
    exact pyBoolStr_inj (String.ext hd)
  · intro A i2 hne hdig
    apply hne
    unfold cache_key_digest md5_hexdigest at hdig
    have hd := congrArg String.data hdig
    rw [cacheKey_data, cacheKey_data] at hd
    replace hd := List.append_cancel_left hd
    replace hd := List.append_cancel_left hd
    replace hd := List.append_cancel_left hd
    replace hd := List.append_cancel_left hd
    replace hd := List.append_cancel_left hd
    replace hd := List.append_cancel_left hd
    replace hd := List.append_cancel_left hd
    replace hd := List.append_cancel_left hd
    replace hd := List.append_cancel_right hd
    exact strIdx_inj (String.ext hd)
  · intro A d2 hne hdig
    apply hne
    unfold cache_key_digest md5_hexdigest at hdig
    have hd := congrArg String.data hdig
    rw [cacheKey_data, cacheKey_data] at hd
    replace hd := List.append_cancel_left hd
    replace hd := List.append_cancel_left hd
    replace hd := List.append_cancel_left hd
    replace hd := List.append_cancel_left hd
    replace hd := List.append_cancel_left hd
    replace hd := List.append_cancel_left hd
    replace hd := List.append_cancel_left hd
    replace hd := List.append_cancel_left hd
    replace hd := List.append_cancel_left hd
    exact pyBoolStr_inj (String.ext hd)

/-- Witness for the amended C2 theorem: each sensitive input, changed alone at
a concrete cache-key argument record, changes the digest. -/
theorem cache_key_sensitivity_witness :
    cache_key_digest exArgsA
      ≠ cache_key_digest { exArgsA with parameters := [("degree", PyVal.pyInt 3)] }
    ∧ cache_key_digest exArgsA ≠ cache_key_digest { exArgsA with number_map := [(0, 1)] }
    ∧ cache_key_digest exArgsA
      ≠ cache_key_digest { exArgsA with subspace_number_map := [(0, 0)] }
    ∧ cache_key_digest exArgsA
      ≠ cache_key_digest { exArgsA with interface := PyInterface.cls "KB" }
    ∧ cache_key_digest exArgsA ≠ cache_key_digest { exArgsA with coffee := true }
    ∧ cache_key_digest exArgsA
      ≠ cache_key_digest { exArgsA with idx := some [some 0, none] }
    ∧ cache_key_digest exArgsA ≠ cache_key_digest { exArgsA with diagonal := true } := by
  refine ⟨cache_key_sensitivity.1 exArgsA _ (by decide) (by decide) ?_,
    cache_key_sensitivity.2.1 exArgsA _ (by decide),
    cache_key_sensitivity.2.2.1 exArgsA _ (by decide),
    cache_key_sensitivity.2.2.2.1 exArgsA _ (by decide),
    cache_key_sensitivity.2.2.2.2.1 exArgsA _ (by decide),
    cache_key_sensitivity.2.2.2.2.2.1 exArgsA _ (by decide),
    cache_key_sensitivity.2.2.2.2.2.2 exArgsA _ (by decide)⟩
  intro hcontra
  have hdeg := hcontra "degree"
  simp [exArgsA, alLookup] at hdeg

/-- Claim C3, evaluated at the failing input (supporting the code-bug
verdict): with an empty in-memory table and a readable disk entry for digest
k0, the first lookup misses memory, reads the disk (disk-read count 1) and
stores the value under the BARE digest; the second lookup for the same
(digest, communicator) pair then looks up the pair key (digest, commkey),
which no store ever writes, so it misses the in-memory table again and
performs ANOTHER disk read (count 1, not 0), contradicting the claim that it
hits the in-memory table directly. -/
theorem cache_lookup_memory_key_mismatch :
    cache_lookup ([] : MemTable Nat) diskEx "k0" 7
      = (Except.ok (42, [(MemKey.bare "k0", 42)]), 1)
    ∧ (cache_lookup memEx diskEx "k0" 7).2 = 1
    ∧ (cache_lookup memEx diskEx "k0" 7).1 = Except.ok (42, memEx) := by
  refine ⟨rfl, rfl, rfl⟩

/-- Claim C4: an on-disk entry that exists but fails to decompress (the
zlib.error branch the source catches and passes over) makes _read_from_disk
broadcast None, so the lookup raises the KeyError cache-miss signal — on
every rank, since every rank branches on the same broadcast value — instead
of propagating the corruption; the caller then falls back to compilation. -/
theorem corrupt_disk_entry_is_cache_miss (mem : MemTable Nat) (disk : DiskStore Nat)
    (key : String) (ck : Int)
    (hcorrupt : alLookup key disk = some DiskFile.corrupt)
    (hmiss : alLookup (MemKey.withComm key ck) mem = none) :
    (cache_lookup mem disk key ck).1 = Except.error () := by
  simp [cache_lookup, hmiss, read_from_disk, readDiskBytes, hcorrupt]

/-- Witness for C4 at a concrete corrupted store. -/
theorem corrupt_disk_entry_is_cache_miss_witness :
    (cache_lookup ([] : MemTable Nat) [("k0", DiskFile.corrupt)] "k0" 7).1
      = Except.error () :=
  corrupt_disk_entry_is_cache_miss [] [("k0", DiskFile.corrupt)] "k0" 7 rfl rfl

/-- Claim C6: clear_cache leaves the shared on-disk store empty (rank 0
removes the cache root and recreates it empty), and afterwards no lookup
returns any kernel entry that was in the in-memory table before the clear:
every reachable in-memory entry is keyed by a bare digest (the only shape
_cache_store and _read_from_disk write), the lookup probes the
(digest, commkey) pair shape, so it misses the table, and the disk read on
the now-empty store raises the cache-miss KeyError. -/
theorem clear_cache_invalidates (mem : MemTable Nat) (disk : DiskStore Nat)
    (key : String) (ck : Int)
    (hbare : ∀ mk ∈ mem.map Prod.fst, ∃ d, mk = MemKey.bare d) :
    clear_cache disk = ([] : DiskStore Nat)
    ∧ (cache_lookup mem (clear_cache disk) key ck).1 = Except.error () := by
  have hmiss : alLookup (MemKey.withComm key ck) mem = none := by
    rw [alLookup_eq_none_iff]
    intro hmem
    obtain ⟨d, hd⟩ := hbare _ hmem
    cases hd
  refine ⟨rfl, ?_⟩
  simp [cache_lookup, hmiss, read_from_disk, readDiskBytes, clear_cache, alLookup]

/-- Witness for C6: a populated memory table and disk store; after the clear,
the lookup that previously succeeded from disk reports a cache miss. -/
theorem clear_cache_invalidates_witness :
    clear_cache diskEx = ([] : DiskStore Nat)
    ∧ (cache_lookup memEx (clear_cache diskEx) "k0" 7).1 = Except.error () :=
  clear_cache_invalidates memEx diskEx "k0" 7
    (by
      intro mk hmk
      simp [memEx] at hmk
      exact ⟨"k0", hmk⟩)

/-- Claim C9: every KernelInfo built by the TSFCKernel constructor loop has
needs_cell_facets and pass_layer_arg equal to the literal False, for every
generated kernel tree and every renumbering map — the two flags are never
derived from the compiled kernel. -/
theorem kernelinfo_flags_false (tree : List GenKernel) (nm snm : Nat → Nat) :
    ∀ ki ∈ TSFCKernel_init_kernels tree nm snm,
      ki.needs_cell_facets = false ∧ ki.pass_layer_arg = false := by
  intro ki hki
  obtain ⟨k, hk, rfl⟩ := List.mem_map.mp hki
  exact ⟨rfl, rfl⟩

/-- Witness for C9 at a concrete generated kernel. -/
theorem kernelinfo_flags_false_witness :
    ({ kernel := { name := "form_cell_integral_otherwise",
                   requires_zeroed_output_arguments := true }
       integral_type := "cell", oriented := true, subdomain_id := -1,
       domain_number := 0, coefficient_map := [0, 2], subspace_map := [1],
       subspace_parts := some [0], needs_cell_facets := false,
       pass_layer_arg := false, needs_cell_sizes := true } : KernelInfo).needs_cell_facets
        = false
    ∧ ({ kernel := { name := "form_cell_integral_otherwise",
                     requires_zeroed_output_arguments := true }
         integral_type := "cell", oriented := true, subdomain_id := -1,
         domain_number := 0, coefficient_map := [0, 2], subspace_map := [1],
         subspace_parts := some [0], needs_cell_facets := false,
         pass_layer_arg := false, needs_cell_sizes := true } : KernelInfo).pass_layer_arg
        = false :=
  kernelinfo_flags_false [genk0] id id _ (by decide)

theorem alLookup_append_self {α β : Type} [DecidableEq α] {d : List (α × β)} {k : α}
    {v : β} (h : alLookup k d = none) : alLookup k (d ++ [(k, v)]) = some v := by
  induction d with
  | nil => simp [alLookup]
  | cons ab rest ih =>
    obtain ⟨a, b⟩ := ab
    by_cases hka : k = a
    · subst hka
      simp [alLookup] at h
    · simp only [alLookup, List.cons_append, if_neg hka] at h ⊢
      exact ih h

/-- Claim C5: calling compile_form a second time with the same form, name,
parameters, split and diagonal arguments returns the tuple stored in the
per-form cache on the first call, leaves the cache unchanged, and performs
zero generator invocations (and no further Real-space substitution). -/
theorem compile_form_second_call_cached (gen : GenFn) (splitF : SplitFn)
    (fcd : List (String × PyVal)) (form : Expr) (name : String)
    (parameters : Option (List (String × PyVal))) (split diagonal : Bool)
    (cache : FormCache) :
    compile_form gen splitF fcd form name parameters split diagonal
        (compile_form gen splitF fcd form name parameters split diagonal cache).cache
      = { kernels :=
            (compile_form gen splitF fcd form name parameters split diagonal cache).kernels,
          cache := (compile_form gen splitF fcd form name parameters split diagonal cache).cache,
          genCalls := 0, mangledForms := [] } := by
  unfold compile_form
  cases h : alLookup (compileFormKey fcd name parameters split diagonal) cache with
  | some r => simp [h]
  | none =>
    simp only [h]
    simp [pySetdefault, h, alLookup_append_self h]

/-- Claim C8 counterexample: the Real-space substitution is NOT performed
before splitting.  For the one-argument form with a Real test function, the
substitution changes the form (first conjunct), and under the source ordering
the splitter sees the original one-argument form, so the single split piece
carries the one-slot index tuple (None,), while performing the substitution
before splitting — as the claim states — would hand the splitter a
zero-argument form and produce the empty index tuple.  The two pipelines
return different results. -/
theorem real_mangle_after_split_counterexample :
    compile_form gen0 split_form_spec [] formA "n" none true false []
      ≠ compile_form_substFirst gen0 split_form_spec [] formA "n" none true false []
    ∧ real_mangle formA ≠ formA
    ∧ (compile_form gen0 split_form_spec [] formA "n" none true false []).kernels
        = [{ indices := [none], kinfo := kinfo0 }]
    ∧ (compile_form_substFirst gen0 split_form_spec [] formA "n" none true false []).kernels
        = [{ indices := [], kinfo := kinfo0 }] := by
  refine ⟨?_, ?_, ?_, ?_⟩ <;> decide

/-- Claim C8 (amended): the Real-space substitution is performed once per
SUB-form, after splitting and before cache-key derivation and lowering: on a
per-form cache miss with split=True, the forms on which _real_mangle runs —
and which are then handed to the TSFCKernel stage — are exactly the
_real_mangle images of the pieces the splitter produced from the original
(unsubstituted) form. -/
theorem real_mangle_per_subform (gen : GenFn) (splitF : SplitFn)
    (fcd : List (String × PyVal)) (form : Expr) (name : String)
    (parameters : Option (List (String × PyVal))) (diagonal : Bool) (cache : FormCache)
    (hmiss : alLookup (compileFormKey fcd name parameters true diagonal) cache = none) :
    (compile_form gen splitF fcd form name parameters true diagonal cache).mangledForms
      = (splitF form diagonal).map (fun p => real_mangle p.2) := by
  unfold compile_form
  simp [hmiss]

/-- Witness for the amended C8 theorem at a concrete form and empty cache. -/
theorem real_mangle_per_subform_witness :
    (compile_form gen0 split_form_spec [] formA "n" none true false []).mangledForms
      = (split_form_spec formA false).map (fun p => real_mangle p.2) :=
  real_mangle_per_subform gen0 split_form_spec [] formA "n" none false [] rfl

theorem alLookup_pySet {α β : Type} [DecidableEq α] (d : List (α × β)) (k : α) (v : β)
    (x : α) : alLookup x (pySet d k v) = if x = k then some v else alLookup x d := by
  induction d with
  | nil => simp [pySet, alLookup]
  | cons ab rest ih =>
    obtain ⟨a, b⟩ := ab
    by_cases hak : a = k
    · subst hak
      simp only [pySet, if_pos rfl]
      by_cases hxa : x = a
      · subst hxa
        simp [alLookup]
      · simp [alLookup, hxa]
    · simp only [pySet, if_neg hak]
      by_cases hxa : x = a
      · subst hxa
        rw [if_neg hak]
        simp [alLookup]
      · simp only [alLookup, if_neg hxa]
        exact ih

theorem alLookup_pyDictUpdate {α β : Type} [DecidableEq α] (d u : List (α × β))
    (hu : (u.map Prod.fst).Nodup) (x : α) :
    alLookup x (pyDictUpdate d u)
      = match alLookup x u with
        | some v => some v
        | none => alLookup x d := by
  induction u generalizing d with
  | nil => simp [pyDictUpdate, alLookup]
  | cons kv rest ih =>
    obtain ⟨k, v⟩ := kv
    simp only [List.map_cons, List.nodup_cons] at hu
    have hstep : pyDictUpdate d ((k, v) :: rest) = pyDictUpdate (pySet d k v) rest := rfl
    rw [hstep, ih (pySet d k v) hu.2]
    by_cases hxk : x = k
    · subst hxk
      have hrest : alLookup x rest = none := by
        rw [alLookup_eq_none_iff]
        exact hu.1
      rw [hrest]
      simp [alLookup_pySet, alLookup]
    · cases hr : alLookup x rest with
      | some w => simp [hr, alLookup, hxk]
      | none => simp [hr, alLookup_pySet, hxk, alLookup]

/-- Claim C10: compile_form only reads the parameters dict supplied by the
caller — the source rebinds the local name to a fresh copy of the
form_compiler defaults and updates that copy, so the effective parameters
are the defaults overridden by the caller entries (caller values win on
conflict) and entries absent from the caller dict keep their default
values; the caller dict takes no part in the result beyond being read. -/
theorem effectiveParameters_merge (fcd p : List (String × PyVal))
    (hp : (p.map Prod.fst).Nodup) :
    (∀ k v, alLookup k p = some v →
        alLookup k (effectiveParameters fcd (some p)) = some v)
    ∧ (∀ k, alLookup k p = none →
        alLookup k (effectiveParameters fcd (some p)) = alLookup k fcd) := by
  constructor
  · intro k v hk
    unfold effectiveParameters pyDictCopy
    rw [alLookup_pyDictUpdate _ _ hp k, hk]
  · intro k hk
    unfold effectiveParameters pyDictCopy
    rw [alLookup_pyDictUpdate _ _ hp k, hk]

/-- Witness for C10: a caller override wins, an untouched key keeps its
default. -/
theorem effectiveParameters_merge_witness :
    alLookup "quadrature_degree"
        (effectiveParameters
          [("mode", PyVal.pyStr "spectral"), ("quadrature_degree", PyVal.pyInt 1)]
          (some [("quadrature_degree", PyVal.pyInt 4)]))
      = some (PyVal.pyInt 4)
    ∧ alLookup "mode"
        (effectiveParameters
          [("mode", PyVal.pyStr "spectral"), ("quadrature_degree", PyVal.pyInt 1)]
          (some [("quadrature_degree", PyVal.pyInt 4)]))
      = some (PyVal.pyStr "spectral") := by
  constructor
  · exact (effectiveParameters_merge _ _ (by decide)).1 "quadrature_degree" _ rfl
  · have h2 := (effectiveParameters_merge
      [("mode", PyVal.pyStr "spectral"), ("quadrature_degree", PyVal.pyInt 1)]
      [("quadrature_degree", PyVal.pyInt 4)] (by decide)).2 "mode" (by rfl)
    rw [h2]
    rfl

theorem mem_argumentsOf {e : Expr} {x : Nat × FunctionSpace} :
    x ∈ argumentsOf e ↔ x ∈ argLeaves e := by
  unfold argumentsOf
  rw [(List.perm_insertionSort _ _).mem_iff, List.mem_dedup]

theorem argLeaves_replace_b (V0 V1 : FunctionSpace) :
    ∀ e : Expr, (∀ x ∈ argLeaves e, x = (0, V0) ∨ x = (1, V1)) →
      ∀ y ∈ argLeaves (replaceE
        [(Expr.argument 0 V0, Expr.const 1), (Expr.argument 1 V1, Expr.argument 0 V1)] e),
        y = (0, V1) := by
  intro e
  induction e with
  | argument n W =>
    intro hx y hy
    rcases hx (n, W) (by simp [argLeaves]) with h | h
    · obtain ⟨hn, hW⟩ := Prod.mk.injEq .. ▸ h
      subst hn
      subst hW
      simp [replaceE, alLookup, argLeaves] at hy
    · obtain ⟨hn, hW⟩ := Prod.mk.injEq .. ▸ h
      subst hn
      subst hW
      simp [replaceE, alLookup, argLeaves] at hy
      exact hy
  | coefficient i =>
    intro hx y hy
    simp [replaceE, alLookup, argLeaves] at hy
  | const n =>
    intro hx y hy
    simp [replaceE, alLookup, argLeaves] at hy
  | add a b iha ihb =>
    intro hx y hy
    simp only [replaceE, alLookup] at hy
    rw [if_neg (by simp), if_neg (by simp)] at hy
    simp only [argLeaves, List.mem_append] at hy
    rcases hy with hy | hy
    · exact iha (fun x hxa => hx x (by simp [argLeaves, hxa])) y hy
    · exact ihb (fun x hxb => hx x (by simp [argLeaves, hxb])) y hy
  | mul a b iha ihb =>
    intro hx y hy
    simp only [replaceE, alLookup] at hy
    rw [if_neg (by simp), if_neg (by simp)] at hy
    simp only [argLeaves, List.mem_append] at hy
    rcases hy with hy | hy
    · exact iha (fun x hxa => hx x (by simp [argLeaves, hxa])) y hy
    · exact ihb (fun x hxb => hx x (by simp [argLeaves, hxb])) y hy

/-- Claim C7: Real-space mangling.  First conjunct: for a form whose only
argument is a test function (number 0) in the Real family, _real_mangle
returns exactly the original form with the literal 1 substituted for that
argument.  Second conjunct: for a form with a Real test argument and a
non-Real trial argument, every argument of the mangled form is the trial
argument converted to test role (number 0 on the trial space), so the
generator never sees a Real-typed argument. -/
theorem real_mangle_spec :
    (∀ (form : Expr) (V : FunctionSpace), argumentsOf form = [(0, V)] →
      V.family = "Real" →
      real_mangle form = replaceE [(Expr.argument 0 V, Expr.const 1)] form)
    ∧ (∀ (form : Expr) (V0 V1 : FunctionSpace),
      argumentsOf form = [(0, V0), (1, V1)] → V0.family = "Real" → V1.family ≠ "Real" →
      ∀ y ∈ argumentsOf (real_mangle form), y = (0, V1) ∧ y.2.family ≠ "Real") := by
  constructor
  · intro form V ha hV
    unfold real_mangle
    rw [ha]
    simp [hV, (by decide : (([true] : List Bool) == [true, false]) = false)]
  · intro form V0 V1 ha h0 h1
    have hb1 : (V1.family == "Real") = false := beq_eq_false_iff_ne.mpr h1
    have hmangle : real_mangle form
        = replaceE [(Expr.argument 0 V0, Expr.const 1),
            (Expr.argument 1 V1, Expr.argument 0 V1)] form := by
      unfold real_mangle
      rw [ha]
      simp [h0, hb1]
    intro y hy
    rw [hmangle] at hy
    have hleaves : ∀ x ∈ argLeaves form, x = (0, V0) ∨ x = (1, V1) := by
      intro x hx
      have := mem_argumentsOf.mpr hx
      rw [ha] at this
      simpa using this
    have hy2 := argLeaves_replace_b V0 V1 form hleaves y (mem_argumentsOf.mp hy)
    refine ⟨hy2, ?_⟩
    rw [hy2]
    exact h1

/-- Witness for C7: the one-argument Real form substitutes to the literal,
and for the Real-test and Lagrange-trial form the surviving argument is the
trial space in test role and is not Real. -/
theorem real_mangle_spec_witness :
    real_mangle formA = replaceE [(Expr.argument 0 VReal, Expr.const 1)] formA
    ∧ (((0, VLag) : Nat × FunctionSpace) = (0, VLag)
        ∧ (((0, VLag) : Nat × FunctionSpace)).2.family ≠ "Real") := by
  constructor
  · exact real_mangle_spec.1 formA VReal (by decide) rfl
  · exact real_mangle_spec.2 formB VReal VLag (by decide) rfl (by decide) (0, VLag) (by decide)
